import Mathlib

/-! GOLB: weighted-latency backend selection with sticky sessions.

A shallow embedding of `internal/lb/lb.go` (package `lb`) and a verification
of its selection, health-probe, affinity and load logic.

Conventions of the embedding

* A `*Backend` is an index into the registry `backends` (the slice built once
  by `loadBackends`; its cells are never reallocated), so reading a field
  through a pointer reads the current registry state.
* `time.Duration` is an `Int` number of nanoseconds; a `time.Time` is an `Int`
  number of nanoseconds counted from the zero `time.Time`.
* Go `int` is the 64-bit two's complement integer of amd64/arm64.
* `float64` arithmetic is modelled exactly: every operation is the real
  result rounded to the nearest binary64 value, ties to even.
* Each function is modelled as one sequential run: the values returned by the
  clock and by the network are arguments.
-/

namespace GOLB

/-! ## Machine arithmetic -/

/-- Two's complement wrap-around of a Go `int` (64 bits). -/
def wrapInt64 (x : Int) : Int := (x + 2 ^ 63) % 2 ^ 64 - 2 ^ 63

/-- Rounding of a rational to the nearest integer, ties to the even one. -/
def roundHalfEven (x : ℚ) : ℤ :=
  if x - ⌊x⌋ < 1 / 2 then ⌊x⌋
  else if 1 / 2 < x - ⌊x⌋ then ⌊x⌋ + 1
  else if ⌊x⌋ % 2 = 0 then ⌊x⌋ else ⌊x⌋ + 1

/-- Rounding of a rational to the nearest number with a 53-bit significand,
ties to even: the rounding of every binary64 operation.  The exponent range is
not bounded here; the magnitudes that `getNextBackend` produces (nonzero values
between `2^-63` and `2^126`) are far inside the normal range of binary64. -/
def roundNE (x : ℚ) : ℚ :=
  if x = 0 then 0
  else roundHalfEven (x / 2 ^ (Int.log 2 |x| - 52)) * 2 ^ (Int.log 2 |x| - 52)

/-- A `float64` as it occurs in `getNextBackend`: `some q` is the finite value
`q`, `none` stands for the non-finite values (`±Inf`, `NaN`). -/
abbrev Float64 := Option ℚ

/-- Conversion `float64(n)` of an integer. -/
def float64OfInt (n : Int) : Float64 := some (roundNE n)

/-- Division `a / b` of `float64` values; a zero divisor gives `±Inf` or `NaN`. -/
def float64Div (a b : Float64) : Float64 :=
  match a, b with
  | some x, some y => if y = 0 then none else some (roundNE (x / y))
  | _, _ => none

/-- Product `a * b` of `float64` values; a non-finite factor gives a
non-finite product. -/
def float64Mul (a b : Float64) : Float64 :=
  match a, b with
  | some x, some y => some (roundNE (x * y))
  | _, _ => none

/-- Conversion `time.Duration(f)` of a `float64` to `int64`: truncation toward
zero.  For a value that `int64` cannot hold Go leaves the result to the
implementation; the amd64 result `-2^63` is used. -/
def durationOfFloat64 (f : Float64) : Int :=
  match f with
  | some q =>
    let t : Int := if 0 ≤ q then ⌊q⌋ else ⌈q⌉
    if -2 ^ 63 ≤ t ∧ t < 2 ^ 63 then t else -2 ^ 63
  | none => -2 ^ 63

/-- The adjusted latency of `getNextBackend`:
`time.Duration(float64(Latency) * (float64(Weight) / float64(totalWeight)))`. -/
def adjustedLatency (latency weight totalWeight : Int) : Int :=
  durationOfFloat64
    (float64Mul (float64OfInt latency)
      (float64Div (float64OfInt weight) (float64OfInt totalWeight)))

/-! ## Data model -/

/-- A `time.Duration`: nanoseconds. -/
abbrev Duration := Int

/-- A `time.Time`: nanoseconds since the zero `time.Time`. -/
abbrev Time := Int

/-- The constant `time.Hour`. -/
def hour : Duration := 3600000000000

/-- The package variable `sessionTimeout`, set once by `init` to
`5 * time.Minute`. -/
def sessionTimeout : Duration := 5 * 60000000000

/-- The constant `http.StatusOK`. -/
def statusOK : Int := 200

/-- The constant `http.StatusServiceUnavailable`. -/
def statusServiceUnavailable : Int := 503

/-- The struct `Backend`. -/
structure Backend where
  URL : String
  Active : Bool
  ActiveStatus : Bool
  Latency : Duration
  LatencyStr : String
  RequestCount : Int
  Weight : Int
  deriving DecidableEq, Repr

/-- Severity of a line written through package `l`. -/
inductive Level
  | info
  | warn
  | error
  deriving DecidableEq, Repr

/-- One call of `l.Info`, `l.Warn` or `l.Error`: message and key/value pairs. -/
structure LogEntry where
  level : Level
  message : String
  keyValues : List (String × String)
  deriving DecidableEq, Repr

/-- The package variables of `lb` that the modelled functions use.  A value of
`clientPreferredBackend` is a pointer into `backends`: an index. -/
structure State where
  backends : List Backend
  clientLatency : String → Option Duration
  clientPreferredBackend : String → Option Nat
  sessionExpiration : String → Option Time

/-- A map read `sessionExpiration[clientIP]`: a missing key gives the zero
`time.Time`. -/
def State.expiration (st : State) (clientIP : String) : Time :=
  (st.sessionExpiration clientIP).getD 0

/-- The URL read through a backend pointer. -/
def State.urlOf (st : State) (p : Nat) : String :=
  match st.backends[p]? with
  | some b => b.URL
  | none => ""

/-! ## `getNextBackend` -/

/-- The first loop of `getNextBackend`: `totalWeight += backend.Weight` over the
active backends. -/
def totalWeightLoop : List Backend → Int → Int
  | [], totalWeight => totalWeight
  | backend :: rest, totalWeight =>
    if backend.Active then totalWeightLoop rest (wrapInt64 (totalWeight + backend.Weight))
    else totalWeightLoop rest totalWeight

/-- The second loop of `getNextBackend`, started at registry index `i` with the
current `selectedBackend` and `minLatency`. -/
def selectLoop (totalWeight : Int) :
    List Backend → Nat → Option Nat → Duration → Option Nat × Duration
  | [], _, selectedBackend, minLatency => (selectedBackend, minLatency)
  | backend :: rest, i, selectedBackend, minLatency =>
    if backend.Active then
      if selectedBackend = none ∨
          adjustedLatency backend.Latency backend.Weight totalWeight < minLatency then
        selectLoop totalWeight rest (i + 1) (some i)
          (adjustedLatency backend.Latency backend.Weight totalWeight)
      else selectLoop totalWeight rest (i + 1) selectedBackend minLatency
    else selectLoop totalWeight rest (i + 1) selectedBackend minLatency

/-- The sticky test at the head of `getNextBackend`: the client has an entry,
the recorded backend is active and `now` is before the recorded expiry. -/
def stickyBackend (st : State) (clientIP : String) (now : Time) : Option Nat :=
  match st.clientPreferredBackend clientIP with
  | some preferredBackend =>
    match st.backends[preferredBackend]? with
    | some b =>
      if b.Active = true ∧ now < st.expiration clientIP then some preferredBackend else none
    | none => none
  | none => none

/-- The fresh selection of `getNextBackend`: both loops. -/
def freshBackend (backends : List Backend) : Option Nat :=
  (selectLoop (totalWeightLoop backends 0) backends 0 none hour).1

/-- The function `getNextBackend`.  `now` is the clock read by the sticky test,
`nowRec` the clock read when the selection is recorded.  The result is the
returned pointer, the package state afterwards and the lines logged. -/
def getNextBackend (st : State) (clientIP : String) (now nowRec : Time) :
    Option Nat × State × List LogEntry :=
  match stickyBackend st clientIP now with
  | some preferredBackend => (some preferredBackend, st, [])
  | none =>
    match freshBackend st.backends with
    | some selectedBackend =>
      (some selectedBackend,
        { st with
          clientPreferredBackend :=
            Function.update st.clientPreferredBackend clientIP (some selectedBackend)
          sessionExpiration :=
            Function.update st.sessionExpiration clientIP (some (nowRec + sessionTimeout)) },
        match st.clientPreferredBackend clientIP with
        | none =>
          [⟨.info, "User changed backend",
            [("clientIP", clientIP), ("from", "none"), ("to", st.urlOf selectedBackend)]⟩]
        | some currentBackend =>
          if currentBackend ≠ selectedBackend then
            [⟨.info, "User changed backend",
              [("clientIP", clientIP), ("from", st.urlOf currentBackend),
                ("to", st.urlOf selectedBackend)]⟩]
          else [])
    | none => (none, st, [])

/-! ## `handler` -/

/-- What `handler` does besides changing the package state. -/
inductive Effect
  | log (e : LogEntry)
  | httpError (message : String) (code : Int)
  | proxyServeHTTP (backend : Nat) (remoteAddr : String)
  | goCheckClientLatency (clientIP : String)
  deriving DecidableEq, Repr

/-- The function `handler`, for a request whose `RemoteAddr` splits into the
host `clientIP`.  The forwarding branch is modelled for a backend URL that
`url.Parse` accepts. -/
def handler (st : State) (remoteAddr clientIP : String) (now nowRec : Time) :
    State × List Effect :=
  match getNextBackend st clientIP now nowRec with
  | (none, st1, logs) =>
    (st1, logs.map Effect.log ++
      [.log ⟨.error, "No active backends available!", []⟩,
       .httpError "All servers are currently unavailable. Please try again later."
         statusServiceUnavailable])
  | (some backend, st1, logs) =>
    (st1, logs.map Effect.log ++
      [.log ⟨.info, "[Request] Forwarding request",
          [("from", remoteAddr), ("to", st1.urlOf backend)]⟩,
       .proxyServeHTTP backend remoteAddr,
       .goCheckClientLatency clientIP])

/-! ## `healthCheck` -/

/-- Outcome of `client.Get(b.URL + "/health")`. -/
inductive ProbeResult
  | err (reason : String)
  | resp (statusCode : Int)
  deriving DecidableEq, Repr

/-- One probe of `healthCheck` (the body of the goroutine started for backend
`b`), given the elapsed time and the outcome of the request. -/
def healthProbe (b : Backend) (elapsed : Duration) (r : ProbeResult) :
    Backend × List LogEntry :=
  match r with
  | .err reason =>
    if b.Active then
      ({ b with Latency := elapsed, Active := false },
        [⟨.warn, "[Health Check] Backend has gone DOWN",
          [("url", b.URL), ("reason", reason)]⟩])
    else ({ b with Latency := elapsed }, [])
  | .resp statusCode =>
    if statusCode ≠ statusOK then
      if b.Active then
        ({ b with Latency := elapsed, Active := false },
          [⟨.warn, "[Health Check] Backend has gone DOWN",
            [("url", b.URL), ("reason", "non-200 response: " ++ toString statusCode)]⟩])
      else ({ b with Latency := elapsed }, [])
    else
      if !b.Active then
        ({ b with Latency := elapsed, Active := true },
          [⟨.info, "[Health Check] Backend is back UP", [("url", b.URL)]⟩])
      else ({ b with Latency := elapsed }, [])

/-- The probes that successive rounds of `healthCheck` run on one backend. -/
def healthProbes : Backend → List (Duration × ProbeResult) → Backend × List LogEntry
  | b, [] => (b, [])
  | b, (elapsed, r) :: rest =>
    ((healthProbes (healthProbe b elapsed r).1 rest).1,
      (healthProbe b elapsed r).2 ++ (healthProbes (healthProbe b elapsed r).1 rest).2)

/-! ## `checkClientLatency` -/

/-- The body of the loop of `checkClientLatency` for the backend at registry
index `i`.  `probe i` is the time measured for the request to backend `i` and
its outcome.  The function tests `err == nil` only: the response is discarded,
so its status code is not examined. -/
def checkClientLatencyBody (probe : Nat → Duration × ProbeResult) (clientIP : String)
    (backend : Backend) (i : Nat) (st : State) : State :=
  if backend.Active then
    match probe i with
    | (latency, .resp _) =>
      let st1 : State :=
        { st with clientLatency := Function.update st.clientLatency clientIP (some latency) }
      let better : Bool :=
        match st1.clientPreferredBackend clientIP with
        | none => true
        | some p =>
          match st1.backends[p]? with
          | some pb => decide (latency < pb.Latency)
          | none => true
      if better then
        { st1 with
          clientPreferredBackend :=
            Function.update st1.clientPreferredBackend clientIP (some i) }
      else st1
    | (_, .err _) => st
  else st

/-- The loop of `checkClientLatency` from registry index `i` on. -/
def checkClientLatencyLoop (probe : Nat → Duration × ProbeResult) (clientIP : String) :
    List Backend → Nat → State → State
  | [], _, st => st
  | backend :: rest, i, st =>
    checkClientLatencyLoop probe clientIP rest (i + 1)
      (checkClientLatencyBody probe clientIP backend i st)

/-- The function `checkClientLatency`. -/
def checkClientLatency (st : State) (clientIP : String) (probe : Nat → Duration × ProbeResult) :
    State :=
  checkClientLatencyLoop probe clientIP st.backends 0 st

/-! ## `loadBackends` -/

/-- The errors of `loadBackends`. -/
inductive LoadError
  | readFile (err : String)
  | unmarshal (err : String)
  | latencyFormat (url : String) (err : String)
  deriving DecidableEq, Repr

/-- The loop of `loadBackends` over the unmarshalled records. -/
def loadBackendsLoop (parseDuration : String → Except String Duration) :
    List Backend → Except LoadError (List Backend)
  | [] => .ok []
  | b :: rest =>
    match parseDuration b.LatencyStr with
    | .error err => .error (.latencyFormat b.URL err)
    | .ok d =>
      match loadBackendsLoop parseDuration rest with
      | .error e => .error e
      | .ok bs => .ok ({ b with Latency := d, Active := b.ActiveStatus } :: bs)

/-- The function `loadBackends`.  The library calls `os.ReadFile`,
`json.Unmarshal` (into `[]Backend`) and `time.ParseDuration` are arguments. -/
def loadBackends (readFile : String → Except String String)
    (unmarshal : String → Except String (List Backend))
    (parseDuration : String → Except String Duration) (file : String) :
    Except LoadError (List Backend) :=
  match readFile file with
  | .error err => .error (.readFile err)
  | .ok fileData =>
    match unmarshal fileData with
    | .error err => .error (.unmarshal err)
    | .ok loadedBackends => loadBackendsLoop parseDuration loadedBackends

/-! ## Specification vocabulary -/

/-- The adjusted latency that `getNextBackend` computes for backend `b`. -/
def Backend.adjusted (b : Backend) (totalWeight : Int) : Duration :=
  adjustedLatency b.Latency b.Weight totalWeight

/-- The client has a valid sticky entry at `now`: an entry exists, the recorded
backend is active and `now` is before the recorded expiry. -/
def ValidSticky (st : State) (clientIP : String) (now : Time) : Prop :=
  ∃ p b, st.clientPreferredBackend clientIP = some p ∧ st.backends[p]? = some b ∧
    b.Active = true ∧ now < st.expiration clientIP

/-- The values of the `Active` flag after each of the successive probes of one
backend. -/
def activeTrace : Backend → List (Duration × ProbeResult) → List Bool
  | _, [] => []
  | b, (elapsed, r) :: rest =>
    (healthProbe b elapsed r).1.Active :: activeTrace (healthProbe b elapsed r).1 rest

/-- The number of changes of a flag that starts at `a` and then takes the values
of the list in turn. -/
def flagChanges : Bool → List Bool → Nat
  | _, [] => 0
  | a, a' :: rest => (if a' = a then 0 else 1) + flagChanges a' rest

/-- The package state after the first `k` iterations of the loop of
`checkClientLatency`. -/
def checkClientLatencyUpTo (st : State) (clientIP : String) (probe : Nat → Duration × ProbeResult)
    (k : Nat) : State :=
  checkClientLatencyLoop probe clientIP (st.backends.take k) 0 st

/-- The sum of the weights of the active backends, as an unbounded integer. -/
def activeWeightSum (bs : List Backend) : Int :=
  ((bs.filter (fun b => b.Active)).map (fun b => b.Weight)).sum

/-- The quantity `latency × weight / total_weight` as an exact rational. -/
def exactAdjusted (b : Backend) (totalWeight : Int) : ℚ :=
  (b.Latency : ℚ) * (b.Weight : ℚ) / (totalWeight : ℚ)

/-! ## Example data -/

/-- A package state with the given registry and empty maps. -/
def freshState (bs : List Backend) : State :=
  ⟨bs, fun _ => none, fun _ => none, fun _ => none⟩

/-- Backend A of the scenario: weight 1, latency 100ms, active. -/
def backendA : Backend := ⟨"http://a", true, true, 100000000, "100ms", 0, 1⟩

/-- Backend B of the scenario: weight 3, latency 150ms, active. -/
def backendB : Backend := ⟨"http://b", true, true, 150000000, "150ms", 0, 3⟩

/-- Two active backends of weight 1 whose latencies differ by one nanosecond,
the slower one first. -/
def nearTieBackends : List Backend :=
  [⟨"http://a", true, true, 1000001, "1.000001ms", 0, 1⟩,
   ⟨"http://b", true, true, 1000000, "1ms", 0, 1⟩]

/-- Two active backends of latency 100ms, the one of weight 3 before the one of
weight 1. -/
def equalLatencyBackends : List Backend :=
  [⟨"http://b", true, true, 100000000, "100ms", 0, 3⟩,
   ⟨"http://a", true, true, 100000000, "100ms", 0, 1⟩]

/-- A state in which client `10.0.0.1` is bound to backend B until time 1000. -/
def stickyState : State :=
  ⟨[backendA, backendB], fun _ => none,
    fun c => if c = "10.0.0.1" then some 1 else none,
    fun c => if c = "10.0.0.1" then some 1000 else none⟩

/-- Backend A of the scenario after its latency has grown to 500ms. -/
def backendASlow : Backend := ⟨"http://a", true, true, 500000000, "100ms", 0, 1⟩

/-- An inactive backend. -/
def backendDown : Backend := ⟨"http://c", false, false, 0, "0s", 0, 1⟩

/-- Probe outcomes in which backend 0 answers HTTP 500 after 10ms and every other
backend answers HTTP 200 after 200ms. -/
def probeFirst500 : Nat → Duration × ProbeResult :=
  fun i => if i = 0 then (10000000, .resp 500) else (200000000, .resp 200)

/-- The record that `json.Unmarshal` builds from a source entry with URL
`http://a`, Latency `100ms`, Active `true` and Weight `0`. -/
def zeroWeightRecord : Backend := ⟨"http://a", false, true, 0, "100ms", 0, 0⟩

/-! ## Rounding -/

theorem roundHalfEven_intCast (n : ℤ) : roundHalfEven (n : ℚ) = n := by
  unfold roundHalfEven
  simp

theorem roundHalfEven_bounds (x : ℚ) : ⌊x⌋ ≤ roundHalfEven x ∧ roundHalfEven x ≤ ⌊x⌋ + 1 := by
  unfold roundHalfEven
  split_ifs <;> omega

theorem roundHalfEven_mono {x y : ℚ} (h : x ≤ y) : roundHalfEven x ≤ roundHalfEven y := by
  have hf : ⌊x⌋ ≤ ⌊y⌋ := Int.floor_mono h
  rcases lt_or_eq_of_le hf with hlt | heq
  · have h1 := (roundHalfEven_bounds x).2
    have h2 := (roundHalfEven_bounds y).1
    omega
  · unfold roundHalfEven
    rw [← heq]
    split_ifs <;> first | omega | linarith

theorem two_zpow_pos (e : ℤ) : (0 : ℚ) < 2 ^ e := zpow_pos (by norm_num) e

/-- Bounds of the rounding of a positive number inside its binade. -/
theorem roundNE_bounds {x : ℚ} (hx : 0 < x) :
    (2 : ℚ) ^ Int.log 2 x ≤ roundNE x ∧ roundNE x ≤ 2 ^ (Int.log 2 x + 1) := by
  have hlo : (2 : ℚ) ^ Int.log 2 x ≤ x := by
    have := Int.zpow_log_le_self (b := 2) (r := x) (by norm_num) hx
    simpa using this
  have hhi : x < (2 : ℚ) ^ (Int.log 2 x + 1) := by
    have := Int.lt_zpow_succ_log_self (b := 2) (by norm_num) x
    simpa using this
  have hu := two_zpow_pos (Int.log 2 x - 52)
  have e1 : (2 : ℚ) ^ Int.log 2 x = ((2 ^ 52 : ℤ) : ℚ) * 2 ^ (Int.log 2 x - 52) := by
    rw [zpow_sub₀ (by norm_num)]
    push_cast
    field_simp
    ring
  have e2 : (2 : ℚ) ^ (Int.log 2 x + 1) = ((2 ^ 53 : ℤ) : ℚ) * 2 ^ (Int.log 2 x - 52) := by
    rw [zpow_sub₀ (by norm_num), zpow_add_one₀ (by norm_num)]
    push_cast
    field_simp
    ring
  unfold roundNE
  rw [if_neg (ne_of_gt hx), abs_of_pos hx, e1, e2]
  constructor
  · apply mul_le_mul_of_nonneg_right _ (le_of_lt hu)
    have := roundHalfEven_mono (x := ((2 ^ 52 : ℤ) : ℚ)) (y := x / 2 ^ (Int.log 2 x - 52)) (by
      rw [le_div_iff₀ hu, ← e1]; exact hlo)
    rw [roundHalfEven_intCast] at this
    exact_mod_cast this
  · apply mul_le_mul_of_nonneg_right _ (le_of_lt hu)
    have := roundHalfEven_mono (x := x / 2 ^ (Int.log 2 x - 52)) (y := ((2 ^ 53 : ℤ) : ℚ)) (by
      rw [div_le_iff₀ hu, ← e2]; exact le_of_lt hhi)
    rw [roundHalfEven_intCast] at this
    exact_mod_cast this

theorem roundNE_zero : roundNE 0 = 0 := by simp [roundNE]

theorem roundNE_pos {x : ℚ} (hx : 0 < x) : 0 < roundNE x :=
  lt_of_lt_of_le (two_zpow_pos _) (roundNE_bounds hx).1

theorem roundNE_nonneg {x : ℚ} (hx : 0 ≤ x) : 0 ≤ roundNE x := by
  rcases eq_or_lt_of_le hx with h | h
  · rw [← h, roundNE_zero]
  · exact le_of_lt (roundNE_pos h)

/-- Rounding to nearest is monotone on the nonnegative numbers. -/
theorem roundNE_mono {x y : ℚ} (hx : 0 ≤ x) (h : x ≤ y) : roundNE x ≤ roundNE y := by
  rcases eq_or_lt_of_le hx with h0 | h0
  · rw [← h0, roundNE_zero]
    exact roundNE_nonneg (le_trans hx h)
  · have hy : 0 < y := lt_of_lt_of_le h0 h
    have hlog : Int.log 2 x ≤ Int.log 2 y := Int.log_mono_right h0 h
    rcases lt_or_eq_of_le hlog with hlt | heq
    · calc roundNE x ≤ 2 ^ (Int.log 2 x + 1) := (roundNE_bounds h0).2
        _ ≤ 2 ^ Int.log 2 y := zpow_le_zpow_right₀ (by norm_num) (by omega)
        _ ≤ roundNE y := (roundNE_bounds hy).1
    · have hu := two_zpow_pos (Int.log 2 y - 52)
      unfold roundNE
      rw [if_neg (ne_of_gt h0), if_neg (ne_of_gt hy), abs_of_pos h0, abs_of_pos hy, heq]
      apply mul_le_mul_of_nonneg_right _ (le_of_lt hu)
      have := roundHalfEven_mono (x := x / 2 ^ (Int.log 2 y - 52))
        (y := y / 2 ^ (Int.log 2 y - 52)) (div_le_div_of_nonneg_right h (le_of_lt hu))
      exact_mod_cast this

/-- A positive number with a 53-bit significand is its own rounding. -/
theorem roundNE_of_significand (m k : ℤ) (h1 : 2 ^ 52 ≤ m) (h2 : m < 2 ^ 53) :
    roundNE ((m : ℚ) * 2 ^ k) = (m : ℚ) * 2 ^ k := by
  have hk := two_zpow_pos k
  have hm : (0 : ℚ) < m := by exact_mod_cast (lt_of_lt_of_le (by norm_num) h1)
  have hx : (0 : ℚ) < (m : ℚ) * 2 ^ k := mul_pos hm hk
  have hlog : Int.log 2 ((m : ℚ) * 2 ^ k) = 52 + k := by
    apply le_antisymm
    · have : Int.log 2 ((m : ℚ) * 2 ^ k) < 53 + k := by
        rw [← Int.lt_zpow_iff_log_lt (by norm_num) hx]
        rw [zpow_add₀ (by norm_num)]
        apply mul_lt_mul_of_pos_right _ hk
        have h53 : (2 : ℚ) ^ (53 : ℤ) = ((2 ^ 53 : ℤ) : ℚ) := by norm_num
        rw [Nat.cast_ofNat, h53]
        exact_mod_cast h2
      omega
    · rw [← Int.zpow_le_iff_le_log (by norm_num) hx]
      rw [zpow_add₀ (by norm_num)]
      apply mul_le_mul_of_nonneg_right _ (le_of_lt hk)
      have h52 : (2 : ℚ) ^ (52 : ℤ) = ((2 ^ 52 : ℤ) : ℚ) := by norm_num
      rw [Nat.cast_ofNat, h52]
      exact_mod_cast h1
  unfold roundNE
  rw [if_neg (ne_of_gt hx), abs_of_pos hx, hlog]
  have : (m : ℚ) * 2 ^ k / 2 ^ (52 + k - 52) = (m : ℚ) := by
    have : (52 : ℤ) + k - 52 = k := by ring
    rw [this]
    field_simp
  rw [this, roundHalfEven_intCast]
  have : (52 : ℤ) + k - 52 = k := by ring
  rw [this]

/-- A positive integer below `2^53` converts to `float64` exactly. -/
theorem roundNE_intCast (n : ℤ) (h0 : 0 < n) (h1 : n < 2 ^ 53) : roundNE (n : ℚ) = n := by
  obtain ⟨a, rfl⟩ := Int.eq_ofNat_of_zero_le (le_of_lt h0)
  have ha0 : a ≠ 0 := by rintro rfl; simp at h0
  have ha1 : a < 2 ^ 53 := by exact_mod_cast h1
  have hlo : 2 ^ Nat.log 2 a ≤ a := Nat.pow_log_le_self 2 ha0
  have hhi : a < 2 ^ (Nat.log 2 a + 1) := Nat.lt_pow_succ_log_self (by norm_num) a
  have he : Nat.log 2 a < 53 := by
    by_contra hc
    have : 2 ^ 53 ≤ 2 ^ Nat.log 2 a := Nat.pow_le_pow_right (by norm_num) (by omega)
    omega
  obtain ⟨d, hd⟩ : ∃ d, Nat.log 2 a + d = 52 := ⟨52 - Nat.log 2 a, by omega⟩
  have h52 : 2 ^ 52 = 2 ^ Nat.log 2 a * 2 ^ d := by rw [← pow_add, hd]
  have h53 : 2 ^ 53 = 2 ^ (Nat.log 2 a + 1) * 2 ^ d := by
    rw [← pow_add]; congr 1; omega
  have hd0 : 0 < 2 ^ d := Nat.pow_pos (by norm_num)
  have key := roundNE_of_significand ((a * 2 ^ d : ℕ) : ℤ) (-(d : ℤ))
    (by
      have : 2 ^ 52 ≤ a * 2 ^ d := by rw [h52]; exact Nat.mul_le_mul_right _ hlo
      exact_mod_cast this)
    (by
      have : a * 2 ^ d < 2 ^ 53 := by rw [h53]; exact Nat.mul_lt_mul_of_pos_right hhi hd0
      exact_mod_cast this)
  have hval : (((a * 2 ^ d : ℕ) : ℤ) : ℚ) * 2 ^ (-(d : ℤ)) = ((a : ℤ) : ℚ) := by
    push_cast
    rw [zpow_neg, zpow_natCast]
    field_simp
  rw [hval] at key
  exact key

theorem durationOfFloat64_of_nonneg {q : ℚ} (h0 : 0 ≤ q) (h1 : q < 2 ^ 63) :
    durationOfFloat64 (some q) = ⌊q⌋ := by
  have hf0 : 0 ≤ ⌊q⌋ := Int.floor_nonneg.2 h0
  have hf1 : ⌊q⌋ < 2 ^ 63 := by
    rw [Int.floor_lt]
    exact_mod_cast h1
  simp only [durationOfFloat64, if_pos h0]
  rw [if_pos ⟨by omega, hf1⟩]

/-- The adjusted latency as a rational expression, for a positive total
weight. -/
theorem adjustedLatency_eq (L w T : ℤ) (hT : 0 < T) :
    adjustedLatency L w T =
      durationOfFloat64 (some (roundNE (roundNE L * roundNE (roundNE w / roundNE T)))) := by
  have hT' : roundNE (T : ℚ) ≠ 0 := ne_of_gt (roundNE_pos (by exact_mod_cast hT))
  simp [adjustedLatency, float64OfInt, float64Div, float64Mul, hT']

theorem roundNE_one : roundNE 1 = 1 := by
  have := roundNE_intCast 1 (by norm_num) (by norm_num)
  simpa using this

theorem roundNE_two_pow_62 : roundNE (2 ^ 62) = 2 ^ 62 := by
  have := roundNE_of_significand (2 ^ 52) 10 (by norm_num) (by norm_num)
  norm_num at this ⊢
  exact this

/-- The weight factor is between 0 and 1 when `0 ≤ w ≤ T` and `0 < T`. -/
theorem weightFactor_bounds (w T : ℤ) (hw : 0 ≤ w) (hwT : w ≤ T) (hT : 0 < T) :
    0 ≤ roundNE (roundNE w / roundNE T) ∧ roundNE (roundNE w / roundNE T) ≤ 1 := by
  have hTq : (0 : ℚ) < roundNE (T : ℚ) := roundNE_pos (by exact_mod_cast hT)
  have hwq : (0 : ℚ) ≤ roundNE (w : ℚ) := roundNE_nonneg (by exact_mod_cast hw)
  have hle : roundNE (w : ℚ) ≤ roundNE (T : ℚ) :=
    roundNE_mono (by exact_mod_cast hw) (by exact_mod_cast hwT)
  have h0 : 0 ≤ roundNE (w : ℚ) / roundNE (T : ℚ) := div_nonneg hwq (le_of_lt hTq)
  refine ⟨roundNE_nonneg h0, ?_⟩
  have := roundNE_mono h0 ((div_le_one hTq).2 hle)
  rwa [roundNE_one] at this

/-- The float product of `getNextBackend` is nonnegative and below `2^63` for a
latency in `[0, 2^62]` and a weight between 0 and the total weight. -/
theorem product_bounds (L w T : ℤ) (hL0 : 0 ≤ L) (hL1 : L ≤ 2 ^ 62) (hw : 0 ≤ w) (hwT : w ≤ T)
    (hT : 0 < T) :
    0 ≤ roundNE (roundNE L * roundNE (roundNE w / roundNE T)) ∧
    roundNE (roundNE L * roundNE (roundNE w / roundNE T)) < 2 ^ 63 := by
  obtain ⟨f0, f1⟩ := weightFactor_bounds w T hw hwT hT
  have hLq : (0 : ℚ) ≤ roundNE (L : ℚ) := roundNE_nonneg (by exact_mod_cast hL0)
  have hLq1 : roundNE (L : ℚ) ≤ 2 ^ 62 := by
    have := roundNE_mono (x := (L : ℚ)) (y := 2 ^ 62) (by exact_mod_cast hL0)
      (by exact_mod_cast hL1)
    rwa [roundNE_two_pow_62] at this
  have hp0 : 0 ≤ roundNE (L : ℚ) * roundNE (roundNE w / roundNE T) := mul_nonneg hLq f0
  refine ⟨roundNE_nonneg hp0, ?_⟩
  have hp1 : roundNE (L : ℚ) * roundNE (roundNE w / roundNE T) ≤ 2 ^ 62 := by
    calc roundNE (L : ℚ) * roundNE (roundNE w / roundNE T) ≤ roundNE (L : ℚ) * 1 :=
          mul_le_mul_of_nonneg_left f1 hLq
      _ ≤ 2 ^ 62 := by rw [mul_one]; exact hLq1
  have := roundNE_mono hp0 hp1
  rw [roundNE_two_pow_62] at this
  exact lt_of_le_of_lt this (by norm_num)

/-- For a fixed nonnegative latency and a fixed total weight, the adjusted
latency does not decrease when the weight grows. -/
theorem adjustedLatency_mono_weight (L w1 w2 T : ℤ) (hL0 : 0 ≤ L) (hL1 : L ≤ 2 ^ 62)
    (hw1 : 0 ≤ w1) (h12 : w1 ≤ w2) (h2T : w2 ≤ T) (hT : 0 < T) :
    adjustedLatency L w1 T ≤ adjustedLatency L w2 T := by
  obtain ⟨a0, a1⟩ := product_bounds L w1 T hL0 hL1 hw1 (le_trans h12 h2T) hT
  obtain ⟨b0, b1⟩ := product_bounds L w2 T hL0 hL1 (le_trans hw1 h12) h2T hT
  rw [adjustedLatency_eq L w1 T hT, adjustedLatency_eq L w2 T hT,
    durationOfFloat64_of_nonneg a0 a1, durationOfFloat64_of_nonneg b0 b1]
  apply Int.floor_mono
  have hTq : (0 : ℚ) < roundNE (T : ℚ) := roundNE_pos (by exact_mod_cast hT)
  have hLq : (0 : ℚ) ≤ roundNE (L : ℚ) := roundNE_nonneg (by exact_mod_cast hL0)
  have hw : roundNE (w1 : ℚ) ≤ roundNE (w2 : ℚ) :=
    roundNE_mono (by exact_mod_cast hw1) (by exact_mod_cast h12)
  have hwq : (0 : ℚ) ≤ roundNE (w1 : ℚ) := roundNE_nonneg (by exact_mod_cast hw1)
  have hf : roundNE (roundNE (w1 : ℚ) / roundNE T) ≤ roundNE (roundNE (w2 : ℚ) / roundNE T) :=
    roundNE_mono (div_nonneg hwq (le_of_lt hTq)) (div_le_div_of_nonneg_right hw (le_of_lt hTq))
  exact roundNE_mono (mul_nonneg hLq (weightFactor_bounds w1 T hw1 (le_trans h12 h2T) hT).1)
    (mul_le_mul_of_nonneg_left hf hLq)

/-- Evaluation of the adjusted latency when the quotient and the product are
binary64 numbers, so that no operation rounds. -/
theorem adjustedLatency_exact (L w T : ℤ) (hL0 : 0 < L) (hL1 : L < 2 ^ 53) (hw0 : 0 < w)
    (hw1 : w < 2 ^ 53) (hT0 : 0 < T) (hT1 : T < 2 ^ 53) (m1 k1 m2 k2 r : ℤ)
    (hq : (w : ℚ) / T = m1 * 2 ^ k1) (hm1 : 2 ^ 52 ≤ m1 ∧ m1 < 2 ^ 53)
    (hp : (L : ℚ) * (w / T) = m2 * 2 ^ k2) (hm2 : 2 ^ 52 ≤ m2 ∧ m2 < 2 ^ 53)
    (hr : (r : ℚ) ≤ L * (w / T) ∧ (L : ℚ) * (w / T) < r + 1) (hr0 : 0 ≤ r) (hr1 : r < 2 ^ 63) :
    adjustedLatency L w T = r := by
  rw [adjustedLatency_eq L w T hT0, roundNE_intCast L hL0 hL1, roundNE_intCast w hw0 hw1,
    roundNE_intCast T hT0 hT1, hq, roundNE_of_significand m1 k1 hm1.1 hm1.2, ← hq, hp,
    roundNE_of_significand m2 k2 hm2.1 hm2.2, ← hp]
  have hfl : ⌊(L : ℚ) * (w / T)⌋ = r := by
    rw [Int.floor_eq_iff]
    exact hr
  rw [durationOfFloat64_of_nonneg, hfl]
  · exact le_trans (by exact_mod_cast hr0) hr.1
  · have : (r : ℚ) + 1 ≤ 2 ^ 63 := by exact_mod_cast (by omega : r + 1 ≤ 2 ^ 63)
    exact lt_of_lt_of_le hr.2 this

/-! ## Evaluations of the adjusted latency -/

theorem adjustedLatency_100ms_1_4 : adjustedLatency 100000000 1 4 = 25000000 :=
  adjustedLatency_exact 100000000 1 4 (by norm_num) (by norm_num) (by norm_num)
    (by norm_num) (by norm_num) (by norm_num) 4503599627370496 (-54) 6710886400000000 (-28) 25000000
    (by norm_num) (by norm_num) (by norm_num) (by norm_num) (by norm_num) (by norm_num)
    (by norm_num)

theorem adjustedLatency_150ms_3_4 : adjustedLatency 150000000 3 4 = 112500000 :=
  adjustedLatency_exact 150000000 3 4 (by norm_num) (by norm_num) (by norm_num)
    (by norm_num) (by norm_num) (by norm_num) 6755399441055744 (-53) 7549747200000000 (-26) 112500000
    (by norm_num) (by norm_num) (by norm_num) (by norm_num) (by norm_num) (by norm_num)
    (by norm_num)

theorem adjustedLatency_1000001_1_2 : adjustedLatency 1000001 1 2 = 500000 :=
  adjustedLatency_exact 1000001 1 2 (by norm_num) (by norm_num) (by norm_num)
    (by norm_num) (by norm_num) (by norm_num) 4503599627370496 (-53) 8589943181934592 (-34) 500000
    (by norm_num) (by norm_num) (by norm_num) (by norm_num) (by norm_num) (by norm_num)
    (by norm_num)

theorem adjustedLatency_1000000_1_2 : adjustedLatency 1000000 1 2 = 500000 :=
  adjustedLatency_exact 1000000 1 2 (by norm_num) (by norm_num) (by norm_num)
    (by norm_num) (by norm_num) (by norm_num) 4503599627370496 (-53) 8589934592000000 (-34) 500000
    (by norm_num) (by norm_num) (by norm_num) (by norm_num) (by norm_num) (by norm_num)
    (by norm_num)

theorem adjustedLatency_100ms_3_4 : adjustedLatency 100000000 3 4 = 75000000 :=
  adjustedLatency_exact 100000000 3 4 (by norm_num) (by norm_num) (by norm_num)
    (by norm_num) (by norm_num) (by norm_num) 6755399441055744 (-53) 5033164800000000 (-26) 75000000
    (by norm_num) (by norm_num) (by norm_num) (by norm_num) (by norm_num) (by norm_num)
    (by norm_num)

theorem adjustedLatency_500ms_1_4 : adjustedLatency 500000000 1 4 = 125000000 :=
  adjustedLatency_exact 500000000 1 4 (by norm_num) (by norm_num) (by norm_num)
    (by norm_num) (by norm_num) (by norm_num) 4503599627370496 (-54) 8388608000000000 (-26)
    125000000 (by norm_num) (by norm_num) (by norm_num) (by norm_num) (by norm_num)
    (by norm_num) (by norm_num)

/-! ## The total weight -/

theorem wrapInt64_of_range (x : Int) (h0 : -2 ^ 63 ≤ x) (h1 : x < 2 ^ 63) : wrapInt64 x = x := by
  unfold wrapInt64
  omega

theorem activeWeightSum_cons (b : Backend) (rest : List Backend) :
    activeWeightSum (b :: rest) =
      (if b.Active = true then b.Weight else 0) + activeWeightSum rest := by
  unfold activeWeightSum
  by_cases hb : b.Active = true <;> simp [List.filter_cons, hb]

theorem activeWeightSum_nonneg :
    ∀ (l : List Backend), (∀ b ∈ l, 1 ≤ b.Weight) → 0 ≤ activeWeightSum l := by
  intro l
  induction l with
  | nil => intro _; simp [activeWeightSum]
  | cons b rest ih =>
    intro hw
    rw [activeWeightSum_cons]
    have h1 := hw b (List.mem_cons_self _ _)
    have h2 := ih (fun b' hb' => hw b' (List.mem_cons_of_mem _ hb'))
    split_ifs <;> omega

/-- An active backend weighs at most the sum of the active weights. -/
theorem weight_le_activeWeightSum :
    ∀ (l : List Backend), (∀ b ∈ l, 1 ≤ b.Weight) → ∀ b ∈ l, b.Active = true →
      b.Weight ≤ activeWeightSum l := by
  intro l
  induction l with
  | nil => intro _ b hb; simp at hb
  | cons c rest ih =>
    intro hw b hb ha
    rw [activeWeightSum_cons]
    have hrest : ∀ b' ∈ rest, 1 ≤ b'.Weight := fun b' hb' => hw b' (List.mem_cons_of_mem _ hb')
    have h0 := activeWeightSum_nonneg rest hrest
    have hc := hw c (List.mem_cons_self _ _)
    rcases List.mem_cons.1 hb with rfl | hb
    · rw [if_pos ha]; omega
    · have := ih hrest b hb ha
      split_ifs <;> omega

/-- Without overflow the first loop of `getNextBackend` computes the sum of the
active weights. -/
theorem totalWeightLoop_eq :
    ∀ (l : List Backend) (acc : Int), (∀ b ∈ l, 1 ≤ b.Weight) → 0 ≤ acc →
      acc + activeWeightSum l < 2 ^ 63 → totalWeightLoop l acc = acc + activeWeightSum l := by
  intro l
  induction l with
  | nil => intro acc _ _ _; simp [totalWeightLoop, activeWeightSum]
  | cons b rest ih =>
    intro acc hw hacc hsum
    have hrest : ∀ b' ∈ rest, 1 ≤ b'.Weight := fun b' hb' => hw b' (List.mem_cons_of_mem _ hb')
    have h0 := activeWeightSum_nonneg rest hrest
    have hb1 := hw b (List.mem_cons_self _ _)
    rw [activeWeightSum_cons] at hsum ⊢
    unfold totalWeightLoop
    by_cases hb : b.Active = true
    · rw [if_pos hb] at hsum ⊢
      rw [if_pos hb, wrapInt64_of_range _ (by omega) (by omega),
        ih _ hrest (by omega) (by omega)]
      omega
    · rw [if_neg hb] at hsum ⊢
      rw [if_neg hb, ih _ hrest hacc (by omega)]
      omega

/-! ## The selection loop -/

theorem selectLoop_fst_none (T : Int) :
    ∀ (l : List Backend) (k : Nat) (sel : Option Nat) (m : Duration),
      (selectLoop T l k sel m).1 = none ↔ sel = none ∧ ∀ b ∈ l, b.Active = false := by
  intro l
  induction l with
  | nil => intro k sel m; simp [selectLoop]
  | cons b rest ih =>
    intro k sel m
    unfold selectLoop
    by_cases hb : b.Active = true
    · by_cases hc : sel = none ∨ adjustedLatency b.Latency b.Weight T < m
      · rw [if_pos hb, if_pos hc, ih]
        simp [hb]
      · rw [if_pos hb, if_neg hc, ih]
        push_neg at hc
        simp [hb, hc.1]
    · rw [if_neg hb, ih]
      simp at hb
      simp [hb]

theorem selectLoop_spec (T : Int) :
    ∀ (l : List Backend) (k : Nat) (sel : Option Nat) (m : Duration) (j : Nat),
      (selectLoop T l k sel m).1 = some j →
      (sel = some j ∧ (selectLoop T l k sel m).2 = m ∧
          ∀ b ∈ l, b.Active = true → m ≤ b.adjusted T) ∨
      (∃ n b, j = k + n ∧ l[n]? = some b ∧ b.Active = true ∧
          (selectLoop T l k sel m).2 = b.adjusted T ∧
          (sel ≠ none → b.adjusted T < m) ∧
          (∀ n' b', n' < n → l[n']? = some b' → b'.Active = true →
            b.adjusted T < b'.adjusted T) ∧
          (∀ b' ∈ l, b'.Active = true → b.adjusted T ≤ b'.adjusted T)) := by
  intro l
  induction l with
  | nil =>
    intro k sel m j h
    left
    simpa [selectLoop] using h
  | cons b rest ih =>
    intro k sel m j h
    unfold selectLoop at h ⊢
    by_cases hb : b.Active = true
    · by_cases hc : sel = none ∨ adjustedLatency b.Latency b.Weight T < m
      · rw [if_pos hb, if_pos hc] at h ⊢
        right
        rcases ih (k + 1) (some k) _ j h with ⟨h1, h2, h3⟩ | ⟨n, b1, h1, h2, h3, h4, h5, h6, h7⟩
        · refine ⟨0, b, ?_, by simp, hb, h2, ?_, ?_, ?_⟩
          · simpa using h1.symm
          · intro hs
            rcases hc with hc | hc
            · exact absurd hc hs
            · exact hc
          · intro n' b' hn'; omega
          · intro b' hb' ha
            rcases List.mem_cons.1 hb' with rfl | hb'
            · exact le_refl _
            · exact h3 b' hb' ha
        · have hlt : b1.adjusted T < b.adjusted T := h5 (by simp)
          refine ⟨n + 1, b1, by omega, by simpa using h2, h3, h4, ?_, ?_, ?_⟩
          · intro hs
            rcases hc with hc | hc
            · exact absurd hc hs
            · exact lt_trans hlt hc
          · intro n' b' hn' hg ha
            cases n' with
            | zero =>
              simp at hg
              subst hg
              exact hlt
            | succ n'' =>
              simp at hg
              exact h6 n'' b' (by omega) hg ha
          · intro b' hb' ha
            rcases List.mem_cons.1 hb' with rfl | hb'
            · exact le_of_lt hlt
            · exact h7 b' hb' ha
      · rw [if_pos hb, if_neg hc] at h ⊢
        push_neg at hc
        rcases ih (k + 1) sel m j h with ⟨h1, h2, h3⟩ | ⟨n, b1, h1, h2, h3, h4, h5, h6, h7⟩
        · left
          refine ⟨h1, h2, ?_⟩
          intro b' hb' ha
          rcases List.mem_cons.1 hb' with rfl | hb'
          · exact hc.2
          · exact h3 b' hb' ha
        · right
          have hlt : b1.adjusted T < b.adjusted T := lt_of_lt_of_le (h5 hc.1) hc.2
          refine ⟨n + 1, b1, by omega, by simpa using h2, h3, h4, h5, ?_, ?_⟩
          · intro n' b' hn' hg ha
            cases n' with
            | zero =>
              simp at hg
              subst hg
              exact hlt
            | succ n'' =>
              simp at hg
              exact h6 n'' b' (by omega) hg ha
          · intro b' hb' ha
            rcases List.mem_cons.1 hb' with rfl | hb'
            · exact le_of_lt hlt
            · exact h7 b' hb' ha
    · rw [if_neg hb] at h ⊢
      rcases ih (k + 1) sel m j h with ⟨h1, h2, h3⟩ | ⟨n, b1, h1, h2, h3, h4, h5, h6, h7⟩
      · left
        refine ⟨h1, h2, ?_⟩
        intro b' hb' ha
        rcases List.mem_cons.1 hb' with rfl | hb'
        · exact absurd ha hb
        · exact h3 b' hb' ha
      · right
        refine ⟨n + 1, b1, by omega, by simpa using h2, h3, h4, h5, ?_, ?_⟩
        · intro n' b' hn' hg ha
          cases n' with
          | zero =>
            simp at hg
            subst hg
            exact absurd ha hb
          | succ n'' =>
            simp at hg
            exact h6 n'' b' (by omega) hg ha
        · intro b' hb' ha
          rcases List.mem_cons.1 hb' with rfl | hb'
          · exact absurd ha hb
          · exact h7 b' hb' ha

/-- The fresh selection finds nothing exactly when no backend is active. -/
theorem freshBackend_eq_none (bs : List Backend) :
    freshBackend bs = none ↔ ∀ b ∈ bs, b.Active = false := by
  unfold freshBackend
  rw [selectLoop_fst_none]
  simp

/-- The fresh selection is the first active backend of least adjusted latency. -/
theorem freshBackend_spec (bs : List Backend) (j : Nat) (h : freshBackend bs = some j) :
    ∃ b, bs[j]? = some b ∧ b.Active = true ∧
      (∀ n' b', n' < j → bs[n']? = some b' → b'.Active = true →
        b.adjusted (totalWeightLoop bs 0) < b'.adjusted (totalWeightLoop bs 0)) ∧
      (∀ b' ∈ bs, b'.Active = true →
        b.adjusted (totalWeightLoop bs 0) ≤ b'.adjusted (totalWeightLoop bs 0)) := by
  unfold freshBackend at h
  rcases selectLoop_spec _ bs 0 none hour j h with ⟨h1, _, _⟩ | ⟨n, b, h1, h2, h3, _, _, h6, h7⟩
  · exact absurd h1 (by simp)
  · have hj : j = n := by omega
    subst hj
    exact ⟨b, h2, h3, h6, h7⟩

theorem freshBackend_eq (bs : List Backend) :
    freshBackend bs = (selectLoop (totalWeightLoop bs 0) bs 0 none hour).1 := rfl

theorem freshBackend_scenario : freshBackend [backendA, backendB] = some 0 := by
  have hT : totalWeightLoop [backendA, backendB] 0 = 4 := by
    simp [totalWeightLoop, backendA, backendB, wrapInt64]
  rw [freshBackend_eq, hT]
  simp [selectLoop, backendA, backendB, adjustedLatency_100ms_1_4, adjustedLatency_150ms_3_4]

theorem freshBackend_slow : freshBackend [backendASlow, backendB] = some 1 := by
  have hT : totalWeightLoop [backendASlow, backendB] 0 = 4 := by
    simp [totalWeightLoop, backendASlow, backendB, wrapInt64]
  rw [freshBackend_eq, hT]
  simp [selectLoop, backendASlow, backendB, adjustedLatency_500ms_1_4,
    adjustedLatency_150ms_3_4]

theorem freshBackend_nearTie : freshBackend nearTieBackends = some 0 := by
  have hT : totalWeightLoop nearTieBackends 0 = 2 := by
    simp [totalWeightLoop, nearTieBackends, wrapInt64]
  rw [freshBackend_eq, hT]
  simp [selectLoop, nearTieBackends, adjustedLatency_1000001_1_2, adjustedLatency_1000000_1_2]

theorem freshBackend_equalLatency : freshBackend equalLatencyBackends = some 1 := by
  have hT : totalWeightLoop equalLatencyBackends 0 = 4 := by
    simp [totalWeightLoop, equalLatencyBackends, wrapInt64]
  rw [freshBackend_eq, hT]
  simp [selectLoop, equalLatencyBackends, adjustedLatency_100ms_1_4, adjustedLatency_100ms_3_4]

theorem not_validSticky_freshState (bs : List Backend) (clientIP : String) (now : Time) :
    ¬ ValidSticky (freshState bs) clientIP now := by
  rintro ⟨p, b, hp, _⟩
  simp [freshState] at hp

/-! ## The sticky test -/

theorem stickyBackend_eq_some (st : State) (clientIP : String) (now : Time) (p : Nat)
    (b : Backend) (hp : st.clientPreferredBackend clientIP = some p)
    (hb : st.backends[p]? = some b) (ha : b.Active = true)
    (hnow : now < st.expiration clientIP) :
    stickyBackend st clientIP now = some p := by
  unfold stickyBackend
  rw [hp]
  simp only [hb]
  rw [if_pos ⟨ha, hnow⟩]

theorem stickyBackend_eq_none_iff (st : State) (clientIP : String) (now : Time) :
    stickyBackend st clientIP now = none ↔ ¬ ValidSticky st clientIP now := by
  constructor
  · rintro h ⟨p, b, hp, hb, ha, hnow⟩
    rw [stickyBackend_eq_some st clientIP now p b hp hb ha hnow] at h
    exact absurd h (by simp)
  · intro h
    unfold stickyBackend
    cases hp : st.clientPreferredBackend clientIP with
    | none => rfl
    | some p =>
      cases hb : st.backends[p]? with
      | none => simp only [hb]
      | some b =>
        simp only [hb]
        rw [if_neg]
        rintro ⟨ha, hnow⟩
        exact h ⟨p, b, hp, hb, ha, hnow⟩

theorem getNextBackend_fresh (st : State) (clientIP : String) (now nowRec : Time)
    (h : ¬ ValidSticky st clientIP now) :
    (getNextBackend st clientIP now nowRec).1 = freshBackend st.backends := by
  unfold getNextBackend
  rw [(stickyBackend_eq_none_iff st clientIP now).2 h]
  cases freshBackend st.backends <;> rfl

/-! ## Claims on `getNextBackend` and `handler` -/

/-- C1: when the affinity table holds an entry for the client whose recorded
backend is active, and `now` is strictly before the recorded expiry,
`getNextBackend` returns exactly the recorded backend, for any registry
(latencies, weights and flags of the other backends are arbitrary), and leaves
the whole package state, the affinity maps included, unchanged. -/
theorem getNextBackend_sticky (st : State) (clientIP : String) (now nowRec : Time) (p : Nat)
    (b : Backend) (exp : Time) (hp : st.clientPreferredBackend clientIP = some p)
    (hb : st.backends[p]? = some b) (ha : b.Active = true)
    (he : st.sessionExpiration clientIP = some exp) (hnow : now < exp) :
    getNextBackend st clientIP now nowRec = (some p, st, []) := by
  have hs : stickyBackend st clientIP now = some p :=
    stickyBackend_eq_some st clientIP now p b hp hb ha (by simpa [State.expiration, he] using hnow)
  unfold getNextBackend
  rw [hs]

/-- C3: when no backend of the registry is active (the empty registry
included), `getNextBackend` returns nil and leaves the package state, the
affinity maps included, unchanged; `handler` then logs the error and answers
with `http.Error(..., 503)` and nothing else: no request is proxied. -/
theorem getNextBackend_none_handler_503 (st : State) (remoteAddr clientIP : String)
    (now nowRec : Time) (h : ∀ b ∈ st.backends, b.Active = false) :
    getNextBackend st clientIP now nowRec = (none, st, []) ∧
    handler st remoteAddr clientIP now nowRec =
      (st, [.log ⟨.error, "No active backends available!", []⟩,
        .httpError "All servers are currently unavailable. Please try again later." 503]) := by
  have hs : stickyBackend st clientIP now = none := by
    rw [stickyBackend_eq_none_iff]
    rintro ⟨p, b, _, hb, ha, _⟩
    have := h b (List.getElem?_mem hb)
    rw [ha] at this
    exact absurd this (by simp)
  have hf : freshBackend st.backends = none := (freshBackend_eq_none st.backends).2 h
  have hg : getNextBackend st clientIP now nowRec = (none, st, []) := by
    unfold getNextBackend
    rw [hs, hf]
  refine ⟨hg, ?_⟩
  unfold handler
  rw [hg]
  rfl

/-- C7: for a client without a valid sticky entry, the backend returned by
`getNextBackend` is active, its adjusted latency (as the function computes it)
is the least among the active backends, and every active backend before it in
registry order has a strictly larger adjusted latency: among the backends that
share the minimum, the first in registry order is returned. -/
theorem getNextBackend_first_minimum (st : State) (clientIP : String) (now nowRec : Time)
    (i : Nat) (hs : ¬ ValidSticky st clientIP now)
    (hi : (getNextBackend st clientIP now nowRec).1 = some i) :
    ∃ b, st.backends[i]? = some b ∧ b.Active = true ∧
      (∀ (j : Nat) (b' : Backend), st.backends[j]? = some b' → b'.Active = true →
        b.adjusted (totalWeightLoop st.backends 0) ≤
          b'.adjusted (totalWeightLoop st.backends 0)) ∧
      (∀ (j : Nat) (b' : Backend), st.backends[j]? = some b' → b'.Active = true →
        b'.adjusted (totalWeightLoop st.backends 0) =
          b.adjusted (totalWeightLoop st.backends 0) → i ≤ j) := by
  rw [getNextBackend_fresh st clientIP now nowRec hs] at hi
  obtain ⟨b, hb, ha, hlt, hle⟩ := freshBackend_spec st.backends i hi
  refine ⟨b, hb, ha, ?_, ?_⟩
  · intro j b' hj ha'
    exact hle b' (List.getElem?_mem hj) ha'
  · intro j b' hj ha' heq
    by_contra hji
    have hlt' := hlt j b' (by omega) hj ha'
    rw [heq] at hlt'
    exact lt_irrefl _ hlt'

/-- C8: when `getNextBackend` makes a fresh selection (no valid sticky entry)
that yields backend `b`, the state afterwards maps the client to `b` with expiry
exactly `nowRec + sessionTimeout`, `nowRec` being the clock read at the
recording and `sessionTimeout` five minutes, whatever the client had before; the
entries of every other client and the registry are unchanged. -/
theorem getNextBackend_records (st : State) (clientIP : String) (now nowRec : Time) (b : Nat)
    (hs : ¬ ValidSticky st clientIP now)
    (hb : (getNextBackend st clientIP now nowRec).1 = some b) :
    (getNextBackend st clientIP now nowRec).2.1.clientPreferredBackend clientIP = some b ∧
    (getNextBackend st clientIP now nowRec).2.1.sessionExpiration clientIP =
      some (nowRec + sessionTimeout) ∧
    sessionTimeout = 5 * 60 * 1000000000 ∧
    (∀ other, other ≠ clientIP →
      (getNextBackend st clientIP now nowRec).2.1.clientPreferredBackend other =
        st.clientPreferredBackend other ∧
      (getNextBackend st clientIP now nowRec).2.1.sessionExpiration other =
        st.sessionExpiration other) ∧
    (getNextBackend st clientIP now nowRec).2.1.backends = st.backends := by
  have hf := getNextBackend_fresh st clientIP now nowRec hs
  rw [hb] at hf
  unfold getNextBackend
  rw [(stickyBackend_eq_none_iff st clientIP now).2 hs, ← hf]
  refine ⟨by simp, by simp, by decide, ?_, rfl⟩
  intro other ho
  simp [Function.update_noteq ho]

/-- The state after a fresh selection of backend `a`. -/
theorem getNextBackend_fresh_state (st : State) (clientIP : String) (now nowRec : Time)
    (a : Nat) (hs : ¬ ValidSticky st clientIP now)
    (ha : (getNextBackend st clientIP now nowRec).1 = some a) :
    (getNextBackend st clientIP now nowRec).2.1 =
      { st with
        clientPreferredBackend := Function.update st.clientPreferredBackend clientIP (some a)
        sessionExpiration :=
          Function.update st.sessionExpiration clientIP (some (nowRec + sessionTimeout)) } := by
  have hf := getNextBackend_fresh st clientIP now nowRec hs
  rw [ha] at hf
  unfold getNextBackend
  rw [(stickyBackend_eq_none_iff st clientIP now).2 hs, ← hf]

/-- What a later call does with an entry written at `nowRec` for backend `a`. -/
theorem getNextBackend_entry (st2 : State) (clientIP : String) (nowRec : Time) (a : Nat)
    (ab : Backend) (hpref : st2.clientPreferredBackend clientIP = some a)
    (hexp : st2.sessionExpiration clientIP = some (nowRec + sessionTimeout))
    (hab : st2.backends[a]? = some ab) (hact : ab.Active = true) (t tRec : Time) :
    (t < nowRec + sessionTimeout → getNextBackend st2 clientIP t tRec = (some a, st2, [])) ∧
    (nowRec + sessionTimeout ≤ t →
      ¬ ValidSticky st2 clientIP t ∧
      (getNextBackend st2 clientIP t tRec).1 = freshBackend st2.backends ∧
      ∃ j b, (getNextBackend st2 clientIP t tRec).1 = some j ∧ st2.backends[j]? = some b ∧
        b.Active = true ∧
        ∀ b' ∈ st2.backends, b'.Active = true →
          b.adjusted (totalWeightLoop st2.backends 0) ≤
            b'.adjusted (totalWeightLoop st2.backends 0)) := by
  have hex : st2.expiration clientIP = nowRec + sessionTimeout := by
    simp [State.expiration, hexp]
  constructor
  · intro ht
    have h1 : stickyBackend st2 clientIP t = some a :=
      stickyBackend_eq_some st2 clientIP t a ab hpref hab hact (by rw [hex]; exact ht)
    unfold getNextBackend
    rw [h1]
  · intro ht
    have hns : ¬ ValidSticky st2 clientIP t := by
      rintro ⟨_, _, _, _, _, hlt⟩
      rw [hex] at hlt
      exact absurd hlt (not_lt.2 ht)
    have hfr := getNextBackend_fresh st2 clientIP t tRec hns
    refine ⟨hns, hfr, ?_⟩
    cases hj : freshBackend st2.backends with
    | none =>
      have hall := (freshBackend_eq_none st2.backends).1 hj ab (List.getElem?_mem hab)
      rw [hact] at hall
      exact absurd hall (by simp)
    | some j =>
      obtain ⟨b, hb, hba, _, hle⟩ := freshBackend_spec st2.backends j hj
      exact ⟨j, b, by rw [hfr, hj], hb, hba, hle⟩

/-- C4: after a fresh selection that assigned backend `a` to the client with the
recording clock at `nowRec`, in any later state `st2` that still holds the
client's entry as written and in which `a` is active, `getNextBackend` at time
`t` returns `a` through the sticky path and changes nothing when
`t < nowRec + sessionTimeout`, whatever the latencies of the other backends are
now; when `nowRec + sessionTimeout ≤ t` the entry is not used and the result is
the fresh selection on the current registry: an active backend of least
adjusted latency.  In the scenario (A assigned at time 0, then A slows down to
500ms so that B has the lower adjusted latency) the call at 4m59s returns A and
the call at 5m1s returns B. -/
theorem getNextBackend_expiry :
    (∀ (st : State) (clientIP : String) (now nowRec : Time) (a : Nat),
      ¬ ValidSticky st clientIP now →
      (getNextBackend st clientIP now nowRec).1 = some a →
      ∀ (st2 : State) (ab : Backend),
        st2.clientPreferredBackend clientIP =
          (getNextBackend st clientIP now nowRec).2.1.clientPreferredBackend clientIP →
        st2.sessionExpiration clientIP =
          (getNextBackend st clientIP now nowRec).2.1.sessionExpiration clientIP →
        st2.backends[a]? = some ab → ab.Active = true →
        ∀ (t tRec : Time),
          (t < nowRec + sessionTimeout →
            getNextBackend st2 clientIP t tRec = (some a, st2, [])) ∧
          (nowRec + sessionTimeout ≤ t →
            ¬ ValidSticky st2 clientIP t ∧
            (getNextBackend st2 clientIP t tRec).1 = freshBackend st2.backends ∧
            ∃ j b, (getNextBackend st2 clientIP t tRec).1 = some j ∧
              st2.backends[j]? = some b ∧ b.Active = true ∧
              ∀ b' ∈ st2.backends, b'.Active = true →
                b.adjusted (totalWeightLoop st2.backends 0) ≤
                  b'.adjusted (totalWeightLoop st2.backends 0))) ∧
    ((getNextBackend (freshState [backendA, backendB]) "10.0.0.1" 0 0).1 = some 0 ∧
      (getNextBackend
        { (getNextBackend (freshState [backendA, backendB]) "10.0.0.1" 0 0).2.1 with
          backends := [backendASlow, backendB] } "10.0.0.1" 299000000000 299000000000).1 =
        some 0 ∧
      (getNextBackend
        { (getNextBackend (freshState [backendA, backendB]) "10.0.0.1" 0 0).2.1 with
          backends := [backendASlow, backendB] } "10.0.0.1" 301000000000 301000000000).1 =
        some 1) := by
  have gen : ∀ (st : State) (clientIP : String) (now nowRec : Time) (a : Nat),
      ¬ ValidSticky st clientIP now →
      (getNextBackend st clientIP now nowRec).1 = some a →
      ∀ (st2 : State) (ab : Backend),
        st2.clientPreferredBackend clientIP =
          (getNextBackend st clientIP now nowRec).2.1.clientPreferredBackend clientIP →
        st2.sessionExpiration clientIP =
          (getNextBackend st clientIP now nowRec).2.1.sessionExpiration clientIP →
        st2.backends[a]? = some ab → ab.Active = true →
        ∀ (t tRec : Time),
          (t < nowRec + sessionTimeout →
            getNextBackend st2 clientIP t tRec = (some a, st2, [])) ∧
          (nowRec + sessionTimeout ≤ t →
            ¬ ValidSticky st2 clientIP t ∧
            (getNextBackend st2 clientIP t tRec).1 = freshBackend st2.backends ∧
            ∃ j b, (getNextBackend st2 clientIP t tRec).1 = some j ∧
              st2.backends[j]? = some b ∧ b.Active = true ∧
              ∀ b' ∈ st2.backends, b'.Active = true →
                b.adjusted (totalWeightLoop st2.backends 0) ≤
                  b'.adjusted (totalWeightLoop st2.backends 0)) := by
    intro st clientIP now nowRec a hs ha st2 ab hpref hexp hab hact t tRec
    rw [getNextBackend_fresh_state st clientIP now nowRec a hs ha] at hpref hexp
    exact getNextBackend_entry st2 clientIP nowRec a ab (by simpa using hpref)
      (by simpa using hexp) hab hact t tRec
  refine ⟨gen, ?_⟩
  have h0 : (getNextBackend (freshState [backendA, backendB]) "10.0.0.1" 0 0).1 = some 0 := by
    rw [getNextBackend_fresh _ _ _ _ (not_validSticky_freshState _ _ _)]
    exact freshBackend_scenario
  have hst := getNextBackend_fresh_state (freshState [backendA, backendB]) "10.0.0.1" 0 0 0
    (not_validSticky_freshState _ _ _) h0
  refine ⟨h0, ?_, ?_⟩
  · have := (getNextBackend_entry
      { (getNextBackend (freshState [backendA, backendB]) "10.0.0.1" 0 0).2.1 with
        backends := [backendASlow, backendB] } "10.0.0.1" 0 0 backendASlow
      (by rw [hst]; simp) (by rw [hst]; simp) rfl rfl 299000000000 299000000000).1
      (by decide)
    rw [this]
  · have := ((getNextBackend_entry
      { (getNextBackend (freshState [backendA, backendB]) "10.0.0.1" 0 0).2.1 with
        backends := [backendASlow, backendB] } "10.0.0.1" 0 0 backendASlow
      (by rw [hst]; simp) (by rw [hst]; simp) rfl rfl 301000000000 301000000000).2
      (by decide)).2.1
    rw [this]
    exact freshBackend_slow

/-! ## `healthCheck` -/

theorem healthProbe_active (b : Backend) (elapsed : Duration) (r : ProbeResult) :
    (healthProbe b elapsed r).1.Active = true ↔ r = .resp 200 := by
  cases r with
  | err reason =>
    unfold healthProbe
    cases hb : b.Active <;> simp
  | resp code =>
    unfold healthProbe
    by_cases hc : code = 200 <;> cases hb : b.Active <;> simp [hc, statusOK]

theorem healthProbe_logs (b : Backend) (elapsed : Duration) (r : ProbeResult) :
    (healthProbe b elapsed r).2.length =
      if (healthProbe b elapsed r).1.Active = b.Active then 0 else 1 := by
  cases r with
  | err reason =>
    unfold healthProbe
    cases hb : b.Active <;> simp
  | resp code =>
    unfold healthProbe
    by_cases hc : code = 200 <;> cases hb : b.Active <;> simp [hc, statusOK]

theorem healthProbes_logs_length :
    ∀ (rs : List (Duration × ProbeResult)) (b : Backend),
      (healthProbes b rs).2.length = flagChanges b.Active (activeTrace b rs) := by
  intro rs
  induction rs with
  | nil => intro b; rfl
  | cons x rest ih =>
    intro b
    obtain ⟨elapsed, r⟩ := x
    simp only [healthProbes, activeTrace, flagChanges, List.length_append]
    rw [ih, healthProbe_logs]

/-- C6: one health probe leaves `Active` true exactly when the outcome was HTTP
200, and logs exactly when the flag changed: one DOWN warning for true to false,
one UP message for false to true, nothing otherwise.  Over any sequence of
probes of a backend the number of lines logged equals the number of changes of
its flag; three failing probes in a row on an active backend clear the flag at
the first one and log exactly one DOWN warning. -/
theorem healthCheck_edge_triggered :
    (∀ (b : Backend) (elapsed : Duration) (r : ProbeResult),
      ((healthProbe b elapsed r).1.Active = true ↔ r = .resp 200) ∧
      (b.Active = true → (healthProbe b elapsed r).1.Active = false →
        ∃ reason, (healthProbe b elapsed r).2 =
          [⟨.warn, "[Health Check] Backend has gone DOWN",
            [("url", b.URL), ("reason", reason)]⟩]) ∧
      (b.Active = false → (healthProbe b elapsed r).1.Active = true →
        (healthProbe b elapsed r).2 =
          [⟨.info, "[Health Check] Backend is back UP", [("url", b.URL)]⟩]) ∧
      ((healthProbe b elapsed r).1.Active = b.Active → (healthProbe b elapsed r).2 = [])) ∧
    (∀ (b : Backend) (rs : List (Duration × ProbeResult)),
      (healthProbes b rs).2.length = flagChanges b.Active (activeTrace b rs)) ∧
    (∀ (b : Backend) (e1 e2 e3 : Duration) (r1 r2 r3 : ProbeResult),
      b.Active = true → r1 ≠ .resp 200 → r2 ≠ .resp 200 → r3 ≠ .resp 200 →
      (healthProbe b e1 r1).1.Active = false ∧
      (healthProbes b [(e1, r1), (e2, r2), (e3, r3)]).1.Active = false ∧
      ∃ reason, (healthProbes b [(e1, r1), (e2, r2), (e3, r3)]).2 =
        [⟨.warn, "[Health Check] Backend has gone DOWN",
          [("url", b.URL), ("reason", reason)]⟩]) := by
  have hstep : ∀ (b : Backend) (elapsed : Duration) (r : ProbeResult),
      (b.Active = true → (healthProbe b elapsed r).1.Active = false →
        ∃ reason, (healthProbe b elapsed r).2 =
          [⟨.warn, "[Health Check] Backend has gone DOWN",
            [("url", b.URL), ("reason", reason)]⟩]) ∧
      (b.Active = false → (healthProbe b elapsed r).1.Active = true →
        (healthProbe b elapsed r).2 =
          [⟨.info, "[Health Check] Backend is back UP", [("url", b.URL)]⟩]) ∧
      ((healthProbe b elapsed r).1.Active = b.Active → (healthProbe b elapsed r).2 = []) := by
    intro b elapsed r
    cases r with
    | err reason =>
      unfold healthProbe
      cases hb : b.Active <;> simp
    | resp code =>
      unfold healthProbe
      by_cases hc : code = 200 <;> cases hb : b.Active <;> simp [hc, statusOK]
  have hfalse : ∀ (b : Backend) (elapsed : Duration) (r : ProbeResult),
      r ≠ .resp 200 → (healthProbe b elapsed r).1.Active = false := by
    intro b elapsed r hr
    cases h : (healthProbe b elapsed r).1.Active with
    | false => rfl
    | true => exact absurd ((healthProbe_active b elapsed r).1 h) hr
  refine ⟨fun b elapsed r => ⟨healthProbe_active b elapsed r, hstep b elapsed r⟩,
    fun b rs => healthProbes_logs_length rs b, ?_⟩
  intro b e1 e2 e3 r1 r2 r3 hb h1 h2 h3
  have a1 := hfalse b e1 r1 h1
  have a2 := hfalse (healthProbe b e1 r1).1 e2 r2 h2
  have a3 := hfalse (healthProbe (healthProbe b e1 r1).1 e2 r2).1 e3 r3 h3
  obtain ⟨reason, hreason⟩ := (hstep b e1 r1).1 hb a1
  have l2 := (hstep (healthProbe b e1 r1).1 e2 r2).2.2 (by rw [a2, a1])
  have l3 := (hstep (healthProbe (healthProbe b e1 r1).1 e2 r2).1 e3 r3).2.2 (by rw [a3, a2])
  refine ⟨a1, ?_, reason, ?_⟩
  · simpa [healthProbes] using a3
  · simp [healthProbes, hreason, l2, l3]

/-! ## `checkClientLatency` -/

theorem checkClientLatencyBody_frame (probe : Nat → Duration × ProbeResult) (clientIP : String)
    (b : Backend) (i : Nat) (s : State) :
    (checkClientLatencyBody probe clientIP b i s).backends = s.backends ∧
    (checkClientLatencyBody probe clientIP b i s).sessionExpiration = s.sessionExpiration ∧
    ∀ other, other ≠ clientIP →
      (checkClientLatencyBody probe clientIP b i s).clientPreferredBackend other =
        s.clientPreferredBackend other := by
  unfold checkClientLatencyBody
  split_ifs with hb
  · split
    · simp only
      split_ifs with hbetter
      · refine ⟨rfl, rfl, ?_⟩
        intro other ho
        simp [Function.update_noteq ho]
      · exact ⟨rfl, rfl, fun _ _ => rfl⟩
    · exact ⟨rfl, rfl, fun _ _ => rfl⟩
  · exact ⟨rfl, rfl, fun _ _ => rfl⟩

theorem checkClientLatencyLoop_frame (probe : Nat → Duration × ProbeResult) (clientIP : String) :
    ∀ (l : List Backend) (i : Nat) (s : State),
      (checkClientLatencyLoop probe clientIP l i s).backends = s.backends ∧
      (checkClientLatencyLoop probe clientIP l i s).sessionExpiration = s.sessionExpiration ∧
      ∀ other, other ≠ clientIP →
        (checkClientLatencyLoop probe clientIP l i s).clientPreferredBackend other =
          s.clientPreferredBackend other := by
  intro l
  induction l with
  | nil => intro i s; simp [checkClientLatencyLoop]
  | cons b rest ih =>
    intro i s
    simp only [checkClientLatencyLoop]
    obtain ⟨h1, h2, h3⟩ := ih (i + 1) (checkClientLatencyBody probe clientIP b i s)
    obtain ⟨g1, g2, g3⟩ := checkClientLatencyBody_frame probe clientIP b i s
    refine ⟨h1.trans g1, h2.trans g2, ?_⟩
    intro other ho
    rw [h3 other ho, g3 other ho]

theorem checkClientLatencyLoop_append (probe : Nat → Duration × ProbeResult) (clientIP : String) :
    ∀ (l1 l2 : List Backend) (i : Nat) (s : State),
      checkClientLatencyLoop probe clientIP (l1 ++ l2) i s =
        checkClientLatencyLoop probe clientIP l2 (i + l1.length)
          (checkClientLatencyLoop probe clientIP l1 i s) := by
  intro l1
  induction l1 with
  | nil => intro l2 i s; simp [checkClientLatencyLoop]
  | cons b rest ih =>
    intro l2 i s
    have hlen : i + (b :: rest).length = i + 1 + rest.length := by simp; omega
    rw [hlen]
    simp only [List.cons_append, checkClientLatencyLoop]
    exact ih l2 (i + 1) _

theorem checkClientLatencyUpTo_succ (st : State) (clientIP : String)
    (probe : Nat → Duration × ProbeResult) (k : Nat) (b : Backend) (hb : st.backends[k]? = some b) :
    checkClientLatencyUpTo st clientIP probe (k + 1) =
      checkClientLatencyBody probe clientIP b k (checkClientLatencyUpTo st clientIP probe k) := by
  unfold checkClientLatencyUpTo
  have hk : k < st.backends.length := by
    by_contra hk
    rw [List.getElem?_eq_none (by omega)] at hb
    exact absurd hb (by simp)
  have hb' : st.backends[k] = b := by
    rw [List.getElem?_eq_getElem hk] at hb
    simpa using hb
  rw [List.take_succ, List.getElem?_eq_getElem hk, checkClientLatencyLoop_append]
  simp [checkClientLatencyLoop, hb', List.length_take, Nat.min_eq_left (Nat.le_of_lt hk)]

theorem checkClientLatency_eq_prefix (st : State) (clientIP : String)
    (probe : Nat → Duration × ProbeResult) :
    checkClientLatency st clientIP probe =
      checkClientLatencyUpTo st clientIP probe st.backends.length := by
  unfold checkClientLatency checkClientLatencyUpTo
  rw [List.take_length]

/-- A backend that the loop of `checkClientLatency` records was either recorded
before or is an active backend of the traversed part whose request returned a
response. -/
theorem checkClientLatencyLoop_recorded (probe : Nat → Duration × ProbeResult) (clientIP : String) :
    ∀ (l : List Backend) (i : Nat) (s : State) (j : Nat),
      (checkClientLatencyLoop probe clientIP l i s).clientPreferredBackend clientIP = some j →
      s.clientPreferredBackend clientIP = some j ∨
      ∃ n b latency code, j = i + n ∧ l[n]? = some b ∧ b.Active = true ∧
        probe j = (latency, .resp code) := by
  intro l
  induction l with
  | nil => intro i s j h; left; simpa [checkClientLatencyLoop] using h
  | cons b rest ih =>
    intro i s j h
    simp only [checkClientLatencyLoop] at h
    rcases ih (i + 1) _ j h with h1 | ⟨n, b1, latency, code, h1, h2, h3, h4⟩
    · unfold checkClientLatencyBody at h1
      split_ifs at h1 with hb
      · split at h1
        · rename_i latency code hp
          simp only at h1
          split_ifs at h1 with hbetter
          · simp at h1
            subst h1
            right
            exact ⟨0, b, latency, code, by simp, by simp, hb, hp⟩
          · left; exact h1
        · left; exact h1
      · left; exact h1
    · right
      exact ⟨n + 1, b1, latency, code, by omega, by simpa using h2, h3, h4⟩

/-- The loop of `checkClientLatency` keeps the recorded backend when no active
backend of the traversed part returned a response with a strictly lower
latency. -/
theorem checkClientLatencyLoop_keeps (probe : Nat → Duration × ProbeResult) (clientIP : String)
    (p : Nat) (pb : Backend) :
    ∀ (l : List Backend) (i : Nat) (s : State),
      s.clientPreferredBackend clientIP = some p → s.backends[p]? = some pb →
      (∀ (n : Nat) (b : Backend) (latency : Duration) (code : Int), l[n]? = some b →
        b.Active = true → probe (i + n) = (latency, .resp code) → ¬ latency < pb.Latency) →
      (checkClientLatencyLoop probe clientIP l i s).clientPreferredBackend clientIP = some p := by
  intro l
  induction l with
  | nil => intro i s hp _ _; simpa [checkClientLatencyLoop] using hp
  | cons b rest ih =>
    intro i s hp hpb hno
    simp only [checkClientLatencyLoop]
    have hbody : (checkClientLatencyBody probe clientIP b i s).clientPreferredBackend clientIP =
        some p := by
      unfold checkClientLatencyBody
      split_ifs with hb
      · split
        · rename_i latency code hpr
          have := hno 0 b latency code (by simp) hb (by simpa using hpr)
          simp [hp, hpb, this]
        · exact hp
      · exact hp
    apply ih (i + 1) _ hbody
    · rw [(checkClientLatencyBody_frame probe clientIP b i s).1]
      exact hpb
    · intro n b' latency code hn hb' hpr
      exact hno (n + 1) b' latency code (by simpa using hn) hb'
        (by rw [← hpr]; congr 1; omega)

/-- What `checkClientLatency` guarantees.  At each iteration the backend
recorded for the client either stays as it is or becomes the iterated backend,
and then that backend is active, its request returned a response (of whatever
status) and the measured latency is strictly below the `Latency` of the backend
recorded at that moment (when one is recorded).  If the client has a recorded
backend and no active backend returned a response with a latency strictly below
its `Latency`, the recorded backend is the same afterwards.  A backend recorded
afterwards that was not recorded before is active and returned a response. -/
theorem checkClientLatency_records_responding (st : State) (clientIP : String)
    (probe : Nat → Duration × ProbeResult) :
    checkClientLatencyUpTo st clientIP probe 0 = st ∧
    checkClientLatency st clientIP probe =
      checkClientLatencyUpTo st clientIP probe st.backends.length ∧
    (∀ (k : Nat) (b : Backend), st.backends[k]? = some b →
      (checkClientLatencyUpTo st clientIP probe (k + 1)).clientPreferredBackend clientIP =
        (checkClientLatencyUpTo st clientIP probe k).clientPreferredBackend clientIP ∨
      ((checkClientLatencyUpTo st clientIP probe (k + 1)).clientPreferredBackend clientIP =
          some k ∧
        b.Active = true ∧
        ∃ latency code, probe k = (latency, .resp code) ∧
          ∀ (p : Nat) (pb : Backend),
            (checkClientLatencyUpTo st clientIP probe k).clientPreferredBackend clientIP =
              some p →
            st.backends[p]? = some pb → latency < pb.Latency)) ∧
    (∀ (p : Nat) (pb : Backend), st.clientPreferredBackend clientIP = some p →
      st.backends[p]? = some pb →
      (∀ (j : Nat) (b : Backend) (latency : Duration) (code : Int), st.backends[j]? = some b →
        b.Active = true → probe j = (latency, .resp code) → ¬ latency < pb.Latency) →
      (checkClientLatency st clientIP probe).clientPreferredBackend clientIP = some p) ∧
    (∀ (j : Nat), (checkClientLatency st clientIP probe).clientPreferredBackend clientIP =
        some j →
      st.clientPreferredBackend clientIP = some j ∨
      ∃ b latency code, st.backends[j]? = some b ∧ b.Active = true ∧
        probe j = (latency, .resp code)) := by
  refine ⟨by simp [checkClientLatencyUpTo, checkClientLatencyLoop],
    checkClientLatency_eq_prefix st clientIP probe, ?_, ?_, ?_⟩
  · intro k b hb
    rw [checkClientLatencyUpTo_succ st clientIP probe k b hb]
    have hbk : (checkClientLatencyUpTo st clientIP probe k).backends = st.backends :=
      (checkClientLatencyLoop_frame probe clientIP _ 0 st).1
    generalize checkClientLatencyUpTo st clientIP probe k = s at hbk ⊢
    unfold checkClientLatencyBody
    split_ifs with ha
    · split
      · rename_i latency code hp
        simp only
        split_ifs with hbetter
        · right
          refine ⟨by simp, ha, latency, code, hp, ?_⟩
          intro p pb hsp hpb
          rw [← hbk] at hpb
          simpa [hsp, hpb] using hbetter
        · left; rfl
      · left; rfl
    · left; rfl
  · intro p pb hp hpb hno
    unfold checkClientLatency
    apply checkClientLatencyLoop_keeps probe clientIP p pb st.backends 0 st hp hpb
    intro n b latency code hn hb hpr
    exact hno n b latency code hn hb (by simpa using hpr)
  · intro j hj
    unfold checkClientLatency at hj
    rcases checkClientLatencyLoop_recorded probe clientIP st.backends 0 st j hj with
      h | ⟨n, b, latency, code, h1, h2, h3, h4⟩
    · left; exact h
    · right
      have hjn : j = n := by omega
      subst hjn
      exact ⟨b, latency, code, h2, h3, h4⟩

/-- C9: the claim fails on the code when a probed backend answers with a status
other than 200.  The registry is A, B, both active, and the client is bound to
backend B (`Latency` 150ms).  B is probed with HTTP 200 after 200ms, so no
successfully probed backend has a lower latency and the claim leaves B
recorded.  A answers HTTP 500 after 10ms, an outcome on which `healthCheck`
marks a backend down; yet `checkClientLatency`, which never looks at the
status, records A. -/
theorem checkClientLatency_records_non200 :
    stickyState.backends = [backendA, backendB] ∧
    backendA.Active = true ∧ backendB.Active = true ∧
    stickyState.clientPreferredBackend "10.0.0.1" = some 1 ∧
    backendB.Latency = 150000000 ∧
    probeFirst500 0 = (10000000, .resp 500) ∧
    probeFirst500 1 = (200000000, .resp 200) ∧
    (healthProbe backendA 10000000 (.resp 500)).1.Active = false ∧
    (checkClientLatency stickyState "10.0.0.1" probeFirst500).clientPreferredBackend
      "10.0.0.1" = some 0 := by
  refine ⟨rfl, rfl, rfl, by simp [stickyState], rfl, rfl, rfl, ?_, ?_⟩
  · simp [healthProbe, backendA, statusOK]
  · simp [checkClientLatency, checkClientLatencyLoop, checkClientLatencyBody, stickyState,
      probeFirst500, backendA, backendB]

/-! ## `loadBackends` -/

theorem loadBackendsLoop_weights (parseDuration : String → Except String Duration) :
    ∀ (src bs : List Backend), loadBackendsLoop parseDuration src = .ok bs →
      bs.map (fun b => b.Weight) = src.map (fun b => b.Weight) ∧
      bs.map (fun b => b.Active) = src.map (fun b => b.ActiveStatus) := by
  intro src
  induction src with
  | nil =>
    intro bs h
    simp only [loadBackendsLoop] at h
    cases h
    simp
  | cons r rest ih =>
    intro bs h
    unfold loadBackendsLoop at h
    split at h
    · exact absurd h (by simp)
    · split at h
      · exact absurd h (by simp)
      · rename_i d hd bs' hbs'
        cases h
        obtain ⟨h1, h2⟩ := ih bs' hbs'
        simp [h1, h2]

/-! ## Weights -/

/-- C2 (amended): for a registry whose weights are all at least 1 and a client
without a valid sticky entry, if some backend is active then `getNextBackend`
returns an active backend whose adjusted latency, computed as the code does
(`float64(latency) * (float64(weight) / float64(total_weight))` truncated to whole
nanoseconds), is the least among the active backends; the total weight is the
sum of the active weights when that sum is below `2^63`; a backend that is the
only active one is the one returned; and for A(weight 1, 100ms) and
B(weight 3, 150ms), both active, the result is A. -/
theorem getNextBackend_minimum :
    (∀ (st : State) (clientIP : String) (now nowRec : Time),
      (∀ b ∈ st.backends, 1 ≤ b.Weight) → ¬ ValidSticky st clientIP now →
      (∃ b ∈ st.backends, b.Active = true) →
      ∃ i b, (getNextBackend st clientIP now nowRec).1 = some i ∧
        st.backends[i]? = some b ∧ b.Active = true ∧
        (∀ b' ∈ st.backends, b'.Active = true →
          b.adjusted (totalWeightLoop st.backends 0) ≤
            b'.adjusted (totalWeightLoop st.backends 0)) ∧
        (activeWeightSum st.backends < 2 ^ 63 →
          totalWeightLoop st.backends 0 = activeWeightSum st.backends) ∧
        (∀ (j : Nat) (bj : Backend), st.backends[j]? = some bj → bj.Active = true →
          (∀ (k : Nat) (bk : Backend), st.backends[k]? = some bk → bk.Active = true → k = j) →
          i = j)) ∧
    (∀ (clientIP : String) (now nowRec : Time),
      (getNextBackend (freshState [backendA, backendB]) clientIP now nowRec).1 = some 0) := by
  constructor
  · intro st clientIP now nowRec hw hs hex
    have hf := getNextBackend_fresh st clientIP now nowRec hs
    cases hi : freshBackend st.backends with
    | none =>
      obtain ⟨b, hb, ha⟩ := hex
      have := (freshBackend_eq_none st.backends).1 hi b hb
      rw [ha] at this
      exact absurd this (by simp)
    | some i =>
      obtain ⟨b, hb, ha, _, hle⟩ := freshBackend_spec st.backends i hi
      refine ⟨i, b, by rw [hf, hi], hb, ha, hle, ?_, ?_⟩
      · intro hsum
        have := totalWeightLoop_eq st.backends 0 hw (le_refl 0) (by simpa using hsum)
        simpa using this
      · intro j bj _ _ huniq
        exact huniq i b hb ha
  · intro clientIP now nowRec
    rw [getNextBackend_fresh _ clientIP now nowRec (not_validSticky_freshState _ _ _)]
    exact freshBackend_scenario

/-- C2 (as stated) fails: with two active backends of weight 1 and latencies
1000001ns and 1000000ns, `getNextBackend` returns the first one although the
exact value of `latency × weight / total_weight` of the second is strictly
smaller (500000 against 500000.5). -/
theorem getNextBackend_not_exact_minimum :
    (∀ b ∈ nearTieBackends, 1 ≤ b.Weight) ∧
    ¬ ValidSticky (freshState nearTieBackends) "10.0.0.1" 0 ∧
    (getNextBackend (freshState nearTieBackends) "10.0.0.1" 0 0).1 = some 0 ∧
    ∃ b0 b1, nearTieBackends[0]? = some b0 ∧ nearTieBackends[1]? = some b1 ∧
      b1.Active = true ∧
      exactAdjusted b1 (activeWeightSum nearTieBackends) <
        exactAdjusted b0 (activeWeightSum nearTieBackends) := by
  refine ⟨by simp [nearTieBackends], not_validSticky_freshState _ _ _, ?_, ?_⟩
  · rw [getNextBackend_fresh _ _ _ _ (not_validSticky_freshState _ _ _)]
    exact freshBackend_nearTie
  · refine ⟨_, _, rfl, rfl, rfl, ?_⟩
    simp [exactAdjusted, activeWeightSum, nearTieBackends]
    norm_num

/-- C5 (as stated) fails: with two active backends of latency 100ms, the one of
weight 3 first in the registry and the one of weight 1 second,
`getNextBackend` returns the one of weight 1. -/
theorem getNextBackend_returns_lower_weight :
    ¬ ValidSticky (freshState equalLatencyBackends) "10.0.0.1" 0 ∧
    (getNextBackend (freshState equalLatencyBackends) "10.0.0.1" 0 0).1 = some 1 ∧
    ∃ hi lo, equalLatencyBackends[0]? = some hi ∧ equalLatencyBackends[1]? = some lo ∧
      hi.Active = true ∧ lo.Active = true ∧ hi.Latency = lo.Latency ∧ 0 < lo.Latency ∧
      lo.Weight < hi.Weight := by
  refine ⟨not_validSticky_freshState _ _ _, ?_, ?_⟩
  · rw [getNextBackend_fresh _ _ _ _ (not_validSticky_freshState _ _ _)]
    exact freshBackend_equalLatency
  · exact ⟨_, _, rfl, rfl, rfl, rfl, rfl, by decide, by decide⟩

/-- C5 (amended): lower weight is preferred, all else equal.  For a registry
whose weights are all at least 1 with active weights summing below `2^63`, a
client without a valid sticky entry, and two active backends of the same
positive latency (at most `2^62` ns) and different weights, the adjusted latency
computed for the lower-weight one is at most that of the higher-weight one, and
`getNextBackend` returns the higher-weight one only when both adjusted
latencies are equal and the higher-weight one comes first in the registry. -/
theorem getNextBackend_prefers_lower_weight (st : State) (clientIP : String)
    (now nowRec : Time) (i j : Nat) (lo hi : Backend)
    (hs : ¬ ValidSticky st clientIP now) (hw : ∀ b ∈ st.backends, 1 ≤ b.Weight)
    (hsum : activeWeightSum st.backends < 2 ^ 63)
    (hlo : st.backends[i]? = some lo) (hhi : st.backends[j]? = some hi)
    (hloa : lo.Active = true) (hhia : hi.Active = true) (hlat : lo.Latency = hi.Latency)
    (hpos : 0 < lo.Latency) (hbound : lo.Latency ≤ 2 ^ 62) (hlt : lo.Weight < hi.Weight) :
    lo.adjusted (totalWeightLoop st.backends 0) ≤ hi.adjusted (totalWeightLoop st.backends 0) ∧
    ((getNextBackend st clientIP now nowRec).1 = some j →
      hi.adjusted (totalWeightLoop st.backends 0) =
        lo.adjusted (totalWeightLoop st.backends 0) ∧ j < i) := by
  have hT : totalWeightLoop st.backends 0 = activeWeightSum st.backends := by
    have := totalWeightLoop_eq st.backends 0 hw (le_refl 0) (by simpa using hsum)
    simpa using this
  have hlo1 := hw lo (List.getElem?_mem hlo)
  have hhiT := weight_le_activeWeightSum st.backends hw hi (List.getElem?_mem hhi) hhia
  have hle : lo.adjusted (totalWeightLoop st.backends 0) ≤
      hi.adjusted (totalWeightLoop st.backends 0) := by
    unfold Backend.adjusted
    rw [hT, ← hlat]
    exact adjustedLatency_mono_weight lo.Latency lo.Weight hi.Weight _ (le_of_lt hpos) hbound
      (by omega) (le_of_lt hlt) hhiT (by omega)
  refine ⟨hle, ?_⟩
  intro hj
  rw [getNextBackend_fresh st clientIP now nowRec hs] at hj
  obtain ⟨b, hb, _, hstrict, hmin⟩ := freshBackend_spec st.backends j hj
  rw [hhi] at hb
  cases hb
  have hge := hmin lo (List.getElem?_mem hlo) hloa
  refine ⟨le_antisymm hge hle, ?_⟩
  rcases Nat.lt_trichotomy i j with h | h | h
  · exact absurd (hstrict i lo h hlo hloa) (not_lt.2 hle)
  · subst h
    rw [hlo] at hhi
    cases hhi
    exact absurd hlt (lt_irrefl _)
  · exact h

/-! ## Claims on `loadBackends` -/

/-- C10 (as stated) fails: `loadBackends` accepts a source whose only record
has weight 0 and returns an active backend of weight 0; the total weight that
`getNextBackend` then computes is 0. -/
theorem loadBackends_accepts_zero_weight :
    loadBackends (fun _ => .ok "") (fun _ => .ok [zeroWeightRecord])
        (fun _ => .ok 100000000) "backends.json" =
      .ok [⟨"http://a", true, true, 100000000, "100ms", 0, 0⟩] ∧
    ¬ (1 : Int) ≤ (⟨"http://a", true, true, 100000000, "100ms", 0, 0⟩ : Backend).Weight ∧
    totalWeightLoop [⟨"http://a", true, true, 100000000, "100ms", 0, 0⟩] 0 = 0 := by
  refine ⟨rfl, by decide, ?_⟩
  simp [totalWeightLoop, wrapInt64]

/-- C10 (amended): `loadBackends` does not check weights.  When it returns a
registry, the file was read and unmarshalled, and the registry has the weights
of the unmarshalled records, in order and unchanged; so every returned backend
has weight at least 1 exactly when every record of the source has, and in that
case the total weight that `getNextBackend` computes over a registry with an
active backend is positive, provided the active weights sum below `2^63`. -/
theorem loadBackends_keeps_weights (readFile : String → Except String String)
    (unmarshal : String → Except String (List Backend))
    (parseDuration : String → Except String Duration) (file : String) (bs : List Backend)
    (h : loadBackends readFile unmarshal parseDuration file = .ok bs) :
    ∃ fileData src, readFile file = .ok fileData ∧ unmarshal fileData = .ok src ∧
      bs.map (fun b => b.Weight) = src.map (fun b => b.Weight) ∧
      ((∀ b ∈ bs, 1 ≤ b.Weight) ↔ ∀ r ∈ src, 1 ≤ r.Weight) ∧
      ((∀ r ∈ src, 1 ≤ r.Weight) → activeWeightSum bs < 2 ^ 63 →
        (∃ b ∈ bs, b.Active = true) → 0 < totalWeightLoop bs 0) := by
  unfold loadBackends at h
  split at h
  · exact absurd h (by simp)
  · rename_i fileData hread
    split at h
    · exact absurd h (by simp)
    · rename_i src hsrc
      have hmap := (loadBackendsLoop_weights parseDuration src bs h).1
      have hiff : ∀ l : List Backend,
          (∀ b ∈ l, 1 ≤ b.Weight) ↔ ∀ w ∈ l.map (fun b => b.Weight), (1 : Int) ≤ w := by
        intro l
        simp
      have hboth : (∀ b ∈ bs, 1 ≤ b.Weight) ↔ ∀ r ∈ src, 1 ≤ r.Weight := by
        rw [hiff bs, hiff src, hmap]
      refine ⟨fileData, src, hread, hsrc, hmap, hboth, ?_⟩
      intro hsrcw hsum hex
      have hw := hboth.2 hsrcw
      obtain ⟨b, hb, ha⟩ := hex
      have htot := totalWeightLoop_eq bs 0 hw (le_refl 0) (by simpa using hsum)
      have hle := weight_le_activeWeightSum bs hw b hb ha
      have h1 := hw b hb
      rw [htot]
      omega

/-! ## Instances -/

theorem getNextBackend_sticky_witness :
    getNextBackend stickyState "10.0.0.1" 999 999 = (some 1, stickyState, []) :=
  getNextBackend_sticky stickyState "10.0.0.1" 999 999 1 backendB 1000
    (by simp [stickyState]) (by simp [stickyState]) rfl (by simp [stickyState]) (by decide)

theorem getNextBackend_minimum_witness :
    ∃ i b, (getNextBackend (freshState [backendA, backendB]) "10.0.0.1" 0 0).1 = some i ∧
      (freshState [backendA, backendB]).backends[i]? = some b ∧ b.Active = true := by
  obtain ⟨i, b, h1, h2, h3, _⟩ :=
    getNextBackend_minimum.1 (freshState [backendA, backendB]) "10.0.0.1" 0 0
      (by simp [freshState, backendA, backendB]) (not_validSticky_freshState _ _ _)
      ⟨backendA, by simp [freshState], rfl⟩
  exact ⟨i, b, h1, h2, h3⟩

theorem getNextBackend_none_handler_503_witness :
    getNextBackend (freshState [backendDown]) "10.0.0.1" 0 0 =
      (none, freshState [backendDown], []) ∧
    handler (freshState [backendDown]) "10.0.0.1:5000" "10.0.0.1" 0 0 =
      (freshState [backendDown], [.log ⟨.error, "No active backends available!", []⟩,
        .httpError "All servers are currently unavailable. Please try again later." 503]) :=
  getNextBackend_none_handler_503 (freshState [backendDown]) "10.0.0.1:5000" "10.0.0.1" 0 0
    (by simp [freshState, backendDown])

theorem getNextBackend_expiry_witness :
    getNextBackend (getNextBackend (freshState [backendA, backendB]) "10.0.0.1" 0 0).2.1
        "10.0.0.1" 299999999999 299999999999 =
      (some 0, (getNextBackend (freshState [backendA, backendB]) "10.0.0.1" 0 0).2.1, []) := by
  have h0 : (getNextBackend (freshState [backendA, backendB]) "10.0.0.1" 0 0).1 = some 0 := by
    rw [getNextBackend_fresh _ _ _ _ (not_validSticky_freshState _ _ _)]
    exact freshBackend_scenario
  have hb : (getNextBackend (freshState [backendA, backendB]) "10.0.0.1" 0 0).2.1.backends[0]? =
      some backendA := by
    rw [getNextBackend_fresh_state _ _ _ _ 0 (not_validSticky_freshState _ _ _) h0]
    rfl
  exact (getNextBackend_expiry.1 (freshState [backendA, backendB]) "10.0.0.1" 0 0 0
    (not_validSticky_freshState _ _ _) h0 _ backendA rfl rfl hb rfl
    299999999999 299999999999).1 (by decide)

theorem getNextBackend_prefers_lower_weight_witness :
    (⟨"http://a", true, true, 100000000, "100ms", 0, 1⟩ : Backend).adjusted
        (totalWeightLoop (freshState equalLatencyBackends).backends 0) ≤
      (⟨"http://b", true, true, 100000000, "100ms", 0, 3⟩ : Backend).adjusted
        (totalWeightLoop (freshState equalLatencyBackends).backends 0) :=
  (getNextBackend_prefers_lower_weight (freshState equalLatencyBackends) "10.0.0.1" 0 0 1 0
    ⟨"http://a", true, true, 100000000, "100ms", 0, 1⟩
    ⟨"http://b", true, true, 100000000, "100ms", 0, 3⟩
    (not_validSticky_freshState _ _ _) (by simp [freshState, equalLatencyBackends])
    (by simp [freshState, equalLatencyBackends, activeWeightSum]) rfl rfl rfl rfl rfl
    (by decide) (by decide) (by decide)).1

theorem healthCheck_edge_triggered_witness :
    (healthProbe backendA 1 (.err "timeout")).1.Active = false ∧
    (healthProbes backendA [(1, .err "timeout"), (2, .resp 500), (3, .err "refused")]).1.Active =
      false ∧
    ∃ reason,
      (healthProbes backendA [(1, .err "timeout"), (2, .resp 500), (3, .err "refused")]).2 =
        [⟨.warn, "[Health Check] Backend has gone DOWN",
          [("url", backendA.URL), ("reason", reason)]⟩] :=
  healthCheck_edge_triggered.2.2 backendA 1 2 3 (.err "timeout") (.resp 500) (.err "refused")
    rfl (by simp) (by simp) (by simp)

theorem getNextBackend_first_minimum_witness :
    ∃ b, (freshState nearTieBackends).backends[0]? = some b ∧ b.Active = true := by
  obtain ⟨b, h1, h2, _⟩ :=
    getNextBackend_first_minimum (freshState nearTieBackends) "10.0.0.1" 0 0 0
      (not_validSticky_freshState _ _ _)
      (by
        rw [getNextBackend_fresh _ _ _ _ (not_validSticky_freshState _ _ _)]
        exact freshBackend_nearTie)
  exact ⟨b, h1, h2⟩

theorem getNextBackend_records_witness :
    (getNextBackend (freshState [backendA, backendB]) "10.0.0.1" 0 7).2.1.clientPreferredBackend
        "10.0.0.1" = some 0 ∧
    (getNextBackend (freshState [backendA, backendB]) "10.0.0.1" 0 7).2.1.sessionExpiration
        "10.0.0.1" = some (7 + sessionTimeout) := by
  obtain ⟨h1, h2, _⟩ :=
    getNextBackend_records (freshState [backendA, backendB]) "10.0.0.1" 0 7 0
      (not_validSticky_freshState _ _ _)
      (by
        rw [getNextBackend_fresh _ _ _ _ (not_validSticky_freshState _ _ _)]
        exact freshBackend_scenario)
  exact ⟨h1, h2⟩

theorem loadBackends_keeps_weights_witness :
    ∃ src : List Backend,
      [backendA].map (fun b => b.Weight) = src.map (fun b => b.Weight) ∧
      ((∀ b ∈ [backendA], 1 ≤ b.Weight) ↔ ∀ r ∈ src, 1 ≤ r.Weight) := by
  obtain ⟨_, src, _, _, h3, h4, _⟩ :=
    loadBackends_keeps_weights (fun _ => .ok "") (fun _ => .ok [backendA])
      (fun _ => .ok 100000000) "backends.json" [backendA] rfl
  exact ⟨src, h3, h4⟩

end GOLB
